import Mathlib

/-!
Dymos, a Bitcask-style storage engine.

A shallow embedding of `internal/storage/record.go` and `internal/storage/storage.go`.

* Byte slices (`[]byte`) and Go strings are lists of `UInt8`.
* `time.Now().UnixNano()` is an input of every function that reads the clock.
* The operating system is part of the state: the content of every file of the data
  directory, and the table of open `*os.File` values with their file offsets.  What the
  operating system answers to a call (an error or not) is an input of the operation.
-/

namespace Dymos

/-! ## record.go -/

/-- A Go `error` value, kept by its message. -/
abbrev Error := String

/-- Header size: crc32 + timestamp + key size + value size. -/
def HeaderSize : Nat := 4 + 8 + 4 + 4

/-- 64KB max key size. -/
def MaxKeySize : Nat := 64 * 1024

/-- 1MB max value size. -/
def MaxValueSize : Nat := 1024 * 1024

/-- The `Record` struct: a Go string (its bytes) and a byte slice. -/
structure Record where
  Key : List UInt8
  Value : List UInt8
deriving DecidableEq

/-- The method `Record.validate`: `none` is the nil error. -/
def Record.validate (r : Record) : Option Error :=
  if r.Key.length > MaxKeySize then
    some "key size exceeds max size"
  else if r.Value.length > MaxValueSize then
    some "value size exceeds max size"
  else
    none

/-- The Go conversion `byte(v)`: the low eight bits. -/
def byte (v : Nat) : UInt8 := UInt8.ofNat (v % 256)

/-- The bytes `binary.BigEndian.PutUint32` stores for `uint32(v)`. -/
def PutUint32 (v : Nat) : List UInt8 :=
  let v := v % 2 ^ 32
  [byte (v >>> 24), byte (v >>> 16), byte (v >>> 8), byte v]

/-- The bytes `binary.BigEndian.PutUint64` stores for `uint64(v)`. -/
def PutUint64 (v : Nat) : List UInt8 :=
  let v := v % 2 ^ 64
  [byte (v >>> 56), byte (v >>> 48), byte (v >>> 40), byte (v >>> 32),
   byte (v >>> 24), byte (v >>> 16), byte (v >>> 8), byte v]

/-- The value `binary.BigEndian.Uint32` / `Uint64` reads back from a run of bytes. -/
def bigEndian (b : List UInt8) : Nat :=
  b.foldl (fun acc x => acc * 256 + x.toNat) 0

/-- The Go call `copy(dst[off:], src)`, also the effect of `PutUintN(dst[off:], v)`: the bytes of
`src` that fit replace those of `dst` from `off` on; the length of `dst` is kept. -/
def copyAt (dst : List UInt8) (off : Nat) (src : List UInt8) : List UInt8 :=
  dst.take off ++ src.take (dst.length - off) ++ dst.drop (off + src.length)

/-- The conversion `uint64(t)` of an `int64` clock reading. -/
def uint64 (t : Int) : Nat := (t % 2 ^ 64).toNat

/-- The IEEE polynomial of `hash/crc32`, reversed representation. -/
def IEEE : Nat := 0xedb88320

/-- One turn of the inner loop of `simplePopulateTable`. -/
def tableStep (crc : Nat) : Nat :=
  if crc &&& 1 = 1 then (crc >>> 1) ^^^ IEEE else crc >>> 1

/-- Entry `i` of `crc32.IEEETable`, as `simplePopulateTable` fills it. -/
def IEEETable (i : Nat) : Nat :=
  tableStep (tableStep (tableStep (tableStep (tableStep (tableStep (tableStep (tableStep i)))))))

/-- The loop body of `simpleUpdate`: `crc = tab[byte(crc)^v] ^ (crc >> 8)`. -/
def crcStep (crc : Nat) (v : UInt8) : Nat :=
  IEEETable ((crc % 256) ^^^ v.toNat) ^^^ (crc >>> 8)

/-- The function `simpleUpdate` of `hash/crc32` with the IEEE table; `^crc` on a `uint32`
is the exclusive or with `0xffffffff`. -/
def simpleUpdate (crc : Nat) (p : List UInt8) : Nat :=
  (p.foldl crcStep (crc ^^^ 0xffffffff)) ^^^ 0xffffffff

/-- The function `crc32.ChecksumIEEE`. -/
def ChecksumIEEE (data : List UInt8) : Nat := simpleUpdate 0 data

/-- The method `Record.GenerateCaskRecord`, at clock reading `now`.
Layout: [CRC32][Timestamp][KeySize][ValueSize][Key][Value].
The result is the triple of the Go method: the frame (`none` is the nil slice), the value size, the error. -/
def Record.GenerateCaskRecord (r : Record) (now : Int) :
    Option (List UInt8) × Nat × Option Error :=
  match r.validate with
  | some err => (none, 0, some err)
  | none =>
    let keySize := r.Key.length
    let valueSize := r.Value.length
    let recordSize := HeaderSize + keySize + valueSize
    let record : List UInt8 := List.replicate recordSize 0
    let offset := 4
    let record := copyAt record offset (PutUint64 (uint64 now))
    let offset := offset + 8
    let record := copyAt record offset (PutUint32 keySize)
    let offset := offset + 4
    let record := copyAt record offset (PutUint32 valueSize)
    let offset := offset + 4
    let record := copyAt record offset r.Key
    let offset := offset + keySize
    let record := copyAt record offset r.Value
    let crc32 := ChecksumIEEE (record.drop 4)
    let record := copyAt record 0 (PutUint32 crc32)
    (some record, valueSize, none)

/-- The bytes of a frame after its checksum: timestamp, key size, value size, key, value. -/
def frameBody (r : Record) (now : Int) : List UInt8 :=
  PutUint64 (uint64 now) ++ (PutUint32 r.Key.length ++ (PutUint32 r.Value.length ++
    (r.Key ++ r.Value)))

/-- Index of the entry of `IEEETable` whose most significant byte is `t`. -/
def tableIndexOfTop (t : Nat) : Nat :=
  (if t.testBit 0 then 65 else 0) ^^^ (if t.testBit 1 then 195 else 0) ^^^
  (if t.testBit 2 then 134 else 0) ^^^ (if t.testBit 3 then 77 else 0) ^^^
  (if t.testBit 4 then 154 else 0) ^^^ (if t.testBit 5 then 117 else 0) ^^^
  (if t.testBit 6 then 234 else 0) ^^^ (if t.testBit 7 then 149 else 0)

/-! ## Go maps -/

/-- The lookup `m[k]` of a Go map kept as a list of pairs: `none` is the `!ok` answer. -/
def mapGet {κ ν : Type} [DecidableEq κ] (m : List (κ × ν)) (k : κ) : Option ν :=
  match m with
  | [] => none
  | (k1, v) :: rest => if k1 = k then some v else mapGet rest k

/-- The assignment `m[k] = v` of a Go map: the entry of `k`, if any, is replaced. -/
def mapSet {κ ν : Type} [DecidableEq κ] (m : List (κ × ν)) (k : κ) (v : ν) : List (κ × ν) :=
  (k, v) :: m.filter (fun p => p.1 ≠ k)

/-! ## The operating system: files and open file values -/

/-- The path `filepath.Join(dir, fmt.Sprintf("%d.data", timestamp))`, kept as its two
components: within one directory it determines, and is determined by, the timestamp. -/
structure FileName where
  dir : String
  stamp : Int
deriving DecidableEq

/-- An `os.File` value. `writable` tells `os.Create` (O_RDWR|O_CREATE|O_TRUNC, no O_APPEND)
from `os.Open` (O_RDONLY); `offset` is the file offset that `Seek`, `Read` and `Write` share. -/
structure OsFile where
  name : FileName
  offset : Nat
  writable : Bool
  closed : Bool
deriving DecidableEq

/-- The files of the data directories, by name. -/
abbrev Disk := List (FileName × List UInt8)

/-- The bytes of a file; a name that is not on the disk has none. -/
def Disk.content (d : Disk) (n : FileName) : List UInt8 := (mapGet d n).getD []

/-- The target of a `*os.File` pointer `p`. Every pointer the engine holds was allocated; one
that was not reads as a closed file. -/
def deref (files : List OsFile) (p : Nat) : OsFile :=
  files.getD p { name := { dir := "", stamp := 0 }, offset := 0, writable := false, closed := true }

/-! ## storage.go -/

/-- The `StorageOptions` struct. -/
structure StorageOptions where
  maxFileSizeInBytes : Int
deriving DecidableEq

/-- The anonymous struct of the `keydir` map. -/
structure KeydirEntry where
  File : FileName
  ValueSize : Nat
  ValuePos : Nat
  Timestamp : Int
deriving DecidableEq

/-- The `storage` struct together with the part of the operating system it acts on.
`currentFile` and the values of `dataFiles` are `*os.File` pointers: indices into `files`,
so that the two can name the same open file.  `currentFileSizeInBytes` is an `int64` that
starts at 0, only grows, and stays below `max(maxFileSizeInBytes, largest frame)`: it is a
natural number here. -/
structure storage where
  dir : String
  currentFile : Nat
  currentFileSizeInBytes : Nat
  maxFileSizeInBytes : Int
  keydir : List (List UInt8 × KeydirEntry)
  dataFiles : List (FileName × Nat)
  files : List OsFile
  disk : Disk
deriving DecidableEq

/-- The call `os.Create(name)`: creates or truncates the file and allocates a read-write `os.File` at
offset 0. `err` is the error the operating system answers, if any. -/
def osCreate (s : storage) (name : FileName) (err : Option Error) :
    Nat × Option Error × storage :=
  match err with
  | some e => (0, some e, s)
  | none =>
    (s.files.length, none,
      { s with
        disk := mapSet s.disk name []
        files := s.files ++ [{ name := name, offset := 0, writable := true, closed := false }] })

/-- The call `os.Open(name)`: allocates a read-only `os.File` at offset 0 on an existing file. -/
def osOpen (s : storage) (name : FileName) (err : Option Error) :
    Nat × Option Error × storage :=
  match err with
  | some e => (0, some e, s)
  | none =>
    match mapGet s.disk name with
    | none => (0, some "no such file or directory", s)
    | some _ =>
      (s.files.length, none,
        { s with
          files := s.files ++ [{ name := name, offset := 0, writable := false, closed := false }] })

/-- The method `(*os.File).Close`: the file value is closed whatever the answer; closing twice fails. -/
def fileClose (s : storage) (p : Nat) (err : Option Error) : Option Error × storage :=
  let f := deref s.files p
  if f.closed then (some "file already closed", s)
  else (err, { s with files := s.files.set p { f with closed := true } })

/-- The call `(*os.File).Write(data)`: writes at the file offset and advances it. With
`limit = some n` the operating system fails after `n` bytes. The result is the new state and
the error; `Put` drops the latter. -/
def fileWrite (s : storage) (p : Nat) (data : List UInt8) (limit : Option Nat) :
    Option Error × storage :=
  let f := deref s.files p
  if f.closed then (some "file already closed", s)
  else if !f.writable then (some "bad file descriptor", s)
  else
    let written := match limit with
      | none => data
      | some n => data.take n
    let err : Option Error := match limit with
      | none => none
      | some _ => some "write failed"
    if written = [] then (err, s)
    else
      let old := s.disk.content f.name
      let padded := old ++ List.replicate (f.offset - old.length) 0
      let new := padded.take f.offset ++ written ++ padded.drop (f.offset + written.length)
      (err, { s with
        disk := mapSet s.disk f.name new
        files := s.files.set p { f with offset := f.offset + written.length } })

/-- The method `(*os.File).Sync`. -/
def fileSync (s : storage) (p : Nat) (err : Option Error) : Option Error :=
  if (deref s.files p).closed then some "file already closed" else err

/-- The call `(*os.File).Seek(pos, io.SeekStart)`; `Get` drops its results. -/
def fileSeek (s : storage) (p : Nat) (pos : Nat) : storage :=
  let f := deref s.files p
  if f.closed then s else { s with files := s.files.set p { f with offset := pos } }

/-- The call `(*os.File).Read(buffer)` with `buffer := make([]byte, n)`: the buffer after the call
and the error. A read into an empty buffer succeeds without asking the operating system;
at end of file the error is `io.EOF`; a short read leaves the rest of the buffer zero. -/
def fileRead (s : storage) (p : Nat) (n : Nat) (err : Option Error) :
    List UInt8 × Option Error × storage :=
  let f := deref s.files p
  if f.closed then (List.replicate n 0, some "file already closed", s)
  else if n = 0 then ([], none, s)
  else match err with
    | some e => (List.replicate n 0, some e, s)
    | none =>
      let got := ((s.disk.content f.name).drop f.offset).take n
      if got = [] then (List.replicate n 0, some "EOF", s)
      else
        (got ++ List.replicate (n - got.length) 0, none,
          { s with files := s.files.set p { f with offset := f.offset + got.length } })

/-- The method `storage.createDataFile`, at clock reading `now`. -/
def storage.createDataFile (s : storage) (now : Int) (err : Option Error) :
    Nat × Option Error × storage :=
  let timestamp := now
  let dataFile : FileName := { dir := s.dir, stamp := timestamp }
  osCreate s dataFile err

/-- The call `NewStorage(dir, opts)` on a directory whose files are `disk`; `none` is the panic on a
failed `createDataFile`. -/
def NewStorage (disk : Disk) (dir : String) (opts : StorageOptions) (now : Int)
    (createErr : Option Error) : Option storage :=
  let s : storage :=
    { dir := dir, currentFile := 0, currentFileSizeInBytes := 0,
      maxFileSizeInBytes := opts.maxFileSizeInBytes,
      keydir := [], dataFiles := [], files := [], disk := disk }
  match s.createDataFile now createErr with
  | (_, some _, _) => none
  | (currentFile, none, s) =>
    some { s with
      currentFile := currentFile
      dataFiles := mapSet s.dataFiles (deref s.files currentFile).name currentFile }

/-- What the clock and the operating system answer during one `Put`. -/
structure PutEnv where
  recordTime : Int
  closeErr : Option Error
  openErr : Option Error
  createTime : Int
  createErr : Option Error
  writeLimit : Option Nat
  syncErr : Option Error
  indexTime : Int
deriving DecidableEq

/-- The body of `if s.currentFileSizeInBytes+int64(len(data)) > s.maxFileSizeInBytes` in
`Put`: seal the current file and create a new one. -/
def storage.rollover (s : storage) (env : PutEnv) : Option Error × storage :=
  let oldFileName := (deref s.files s.currentFile).name
  match fileClose s s.currentFile env.closeErr with
  | (some err, s) => (some err, s)
  | (none, s) =>
    match osOpen s oldFileName env.openErr with
    | (_, some err, s) => (some err, s)
    | (readOnlyFile, none, s) =>
      let s := { s with dataFiles := mapSet s.dataFiles oldFileName readOnlyFile }
      match s.createDataFile env.createTime env.createErr with
      | (_, some err, s) => (some err, s)
      | (currentFile, none, s) =>
        (none, { s with
          currentFile := currentFile
          currentFileSizeInBytes := 0
          dataFiles := mapSet s.dataFiles (deref s.files currentFile).name currentFile })

/-- The method `storage.Put`: the error returned and the state after the call. -/
def storage.Put (s : storage) (key : List UInt8) (value : List UInt8) (env : PutEnv) :
    Option Error × storage :=
  let record : Record := { Key := key, Value := value }
  match record.GenerateCaskRecord env.recordTime with
  | (_, _, some err) => (some err, s)
  | (frame, valueSize, none) =>
    let data := frame.getD []
    let rolled : Option Error × storage :=
      if s.maxFileSizeInBytes < ((s.currentFileSizeInBytes + data.length : Nat) : Int) then
        s.rollover env
      else (none, s)
    match rolled with
    | (some err, s) => (some err, s)
    | (none, s) =>
      let s := (fileWrite s s.currentFile data env.writeLimit).2
      match fileSync s s.currentFile env.syncErr with
      | some err => (some err, s)
      | none =>
        let s := { s with currentFileSizeInBytes := s.currentFileSizeInBytes + data.length }
        (none, { s with
          keydir := mapSet s.keydir key
            { File := (deref s.files s.currentFile).name
              ValueSize := valueSize
              ValuePos := s.currentFileSizeInBytes - valueSize
              Timestamp := env.indexTime } })

/-- The method `storage.Get`: the value (`none` is the nil slice), the error, and the state after the
call; `readErr` is the error the operating system answers to `Read`, if any. -/
def storage.Get (s : storage) (key : List UInt8) (readErr : Option Error) :
    (Option (List UInt8) × Option Error) × storage :=
  match mapGet s.keydir key with
  | none => ((none, none), s)
  | some entry =>
    match mapGet s.dataFiles entry.File with
    | none => ((none, some "file not found"), s)
    | some file =>
      let s := fileSeek s file entry.ValuePos
      match fileRead s file entry.ValueSize readErr with
      | (_, some err, s) => ((none, some err), s)
      | (buffer, none, s) => ((some buffer, none), s)

/-! ## Runs of calls -/

/-- One call of the public interface, with what the environment answers during it. -/
inductive Call where
  | put (key value : List UInt8) (env : PutEnv)
  | get (key : List UInt8) (readErr : Option Error)
deriving DecidableEq

/-- The state after a call. -/
def storage.step (s : storage) : Call → storage
  | .put key value env => (s.Put key value env).2
  | .get key readErr => (s.Get key readErr).2

/-- The error a call returns in state `s`. -/
def storage.errorOf (s : storage) : Call → Option Error
  | .put key value env => (s.Put key value env).1
  | .get key readErr => (s.Get key readErr).1.2

/-- The state after a sequence of calls. -/
def storage.run (s : storage) (calls : List Call) : storage :=
  calls.foldl storage.step s

/-- Whether every call of the sequence returns a nil error. -/
def storage.allSucceed (s : storage) : List Call → Bool
  | [] => true
  | c :: rest => (s.errorOf c).isNone && (s.step c).allSucceed rest

/-- The keys of the `Put` calls of the sequence that returned a nil error. -/
def storage.putKeys (s : storage) : List Call → List (List UInt8)
  | [] => []
  | .put key value env :: rest =>
    if (s.Put key value env).1 = none then key :: (s.step (.put key value env)).putKeys rest
    else (s.step (.put key value env)).putKeys rest
  | .get key readErr :: rest => (s.step (.get key readErr)).putKeys rest

/-- An environment in which every file operation of a `Put` succeeds. -/
def PutEnv.succeeds (env : PutEnv) : Prop :=
  env.closeErr = none ∧ env.openErr = none ∧ env.createErr = none ∧
    env.writeLimit = none ∧ env.syncErr = none

instance (env : PutEnv) : Decidable env.succeeds := by
  unfold PutEnv.succeeds; infer_instance

/-- The environment of a `Put` in which every file operation succeeds, with its three clock
readings. -/
def PutEnv.ok (recordTime createTime indexTime : Int) : PutEnv :=
  { recordTime := recordTime, closeErr := none, openErr := none, createTime := createTime,
    createErr := none, writeLimit := none, syncErr := none, indexTime := indexTime }

/-- The names of the files `os.Create` returned so far, in creation order: the segment
names `createDataFile` produced. -/
def storage.createdNames (s : storage) : List FileName :=
  (s.files.filter (fun f => f.writable)).map (fun f => f.name)

/-! ## The two halves of `Put` -/

/-- The start of `Put` for a valid record of frame length `n`: the rollover test. -/
def storage.rolled (s : storage) (n : Nat) (env : PutEnv) : Option Error × storage :=
  if s.maxFileSizeInBytes < ((s.currentFileSizeInBytes + n : Nat) : Int) then s.rollover env
  else (none, s)

/-- The frame `GenerateCaskRecord` builds for a valid record. -/
def frame (r : Record) (now : Int) : List UInt8 :=
  PutUint32 (ChecksumIEEE (frameBody r now)) ++ frameBody r now

/-- The end of `Put`: write, sync, count and index. -/
def storage.append (s : storage) (key data : List UInt8) (valueSize : Nat) (env : PutEnv) :
    Option Error × storage :=
  let s := (fileWrite s s.currentFile data env.writeLimit).2
  match fileSync s s.currentFile env.syncErr with
  | some err => (some err, s)
  | none =>
    let s := { s with currentFileSizeInBytes := s.currentFileSizeInBytes + data.length }
    (none, { s with
      keydir := mapSet s.keydir key
        { File := (deref s.files s.currentFile).name
          ValueSize := valueSize
          ValuePos := s.currentFileSizeInBytes - valueSize
          Timestamp := env.indexTime } })

/-! ## Invariants of a run -/

/-- What `Get` relies on, for the values `m` the keys stand for: every registered segment is
an allocated open file value of that name, a key without a value has no index entry, and the
index entry of a key with a value names a registered segment and the place of that value in
it. -/
structure Readable (s : storage) (m : List UInt8 → Option (List UInt8)) : Prop where
  handle : ∀ n p, mapGet s.dataFiles n = some p →
    p < s.files.length ∧ (deref s.files p).name = n ∧ (deref s.files p).closed = false
  absent : ∀ k, m k = none → mapGet s.keydir k = none
  present : ∀ k v, m k = some v → ∃ e, mapGet s.keydir k = some e ∧
    e.ValueSize = v.length ∧ (mapGet s.dataFiles e.File).isSome = true ∧
    e.ValuePos + e.ValueSize ≤ (s.disk.content e.File).length ∧
    ((s.disk.content e.File).drop e.ValuePos).take e.ValueSize = v

/-- What `Put` relies on: the current file is an open, writable file value, registered under
its name, whose offset and whose file length both equal the size counter; and every
registered name is one `os.Create` returned. -/
structure Appendable (s : storage) : Prop where
  inRange : s.currentFile < s.files.length
  isOpen : (deref s.files s.currentFile).closed = false
  writable : (deref s.files s.currentFile).writable = true
  registered : mapGet s.dataFiles (deref s.files s.currentFile).name = some s.currentFile
  atEnd : (deref s.files s.currentFile).offset = s.currentFileSizeInBytes
  size : ∃ c, mapGet s.disk (deref s.files s.currentFile).name = some c ∧
    c.length = s.currentFileSizeInBytes
  created : ∀ n p, mapGet s.dataFiles n = some p → n ∈ s.createdNames

/-- The value a call puts under key `k`, if it is a `Put` of that key. -/
def Call.putOf (k : List UInt8) : Call → Option (List UInt8)
  | .put key value _ => if key = k then some value else none
  | .get _ _ => none

/-- The value of the last `Put` for `k` in a sequence of calls. -/
def lastPut (calls : List Call) (k : List UInt8) : Option (List UInt8) :=
  (calls.filterMap (Call.putOf k)).getLast?

/-- A `Put` of a record within the size bounds, during which every file operation succeeds. -/
def Call.validPut : Call → Prop
  | .put key value env => key.length ≤ 65536 ∧ value.length ≤ 1048576 ∧ env.succeeds
  | .get _ _ => False

instance (c : Call) : Decidable c.validPut := by
  cases c <;> unfold Call.validPut <;> infer_instance

/-- A `Get` call. -/
def Call.isGet : Call → Bool
  | .put _ _ _ => false
  | .get _ _ => true

/-! ## Example states and runs -/

/-- An alteration of the byte at offset `i` of file `n` by something other than the engine. -/
def storage.corrupt (s : storage) (n : FileName) (i : Nat) (b : UInt8) : storage :=
  { s with disk := mapSet s.disk n ((s.disk.content n).set i b) }

/-- The engine `NewStorage("data", StorageOptions{maxFileSizeInBytes: max})` returns at clock
reading 100 in an empty directory. -/
def fresh (max : Int) : storage :=
  { dir := "data", currentFile := 0, currentFileSizeInBytes := 0, maxFileSizeInBytes := max,
    keydir := [], dataFiles := [(FileName.mk "data" 100, 0)],
    files := [OsFile.mk (FileName.mk "data" 100) 0 true false],
    disk := [(FileName.mk "data" 100, [])] }

/-- Put `a`, put `b`, get `a`, put `c`: one-byte keys and values, every operation succeeding. -/
def putPutGetPut : List Call :=
  [.put [97] [1] (PutEnv.ok 101 102 103), .put [98] [2] (PutEnv.ok 104 105 106),
   .get [97] none, .put [99] [3] (PutEnv.ok 107 108 109)]

/-- Four puts on three keys, the last one overwriting the first key. -/
def fourPuts : List Call :=
  [.put [97] [1] (PutEnv.ok 101 102 103), .put [98] [2] (PutEnv.ok 104 105 106),
   .put [99] [3] (PutEnv.ok 107 108 109), .put [97] [4, 5] (PutEnv.ok 110 111 112)]

/-- An environment in which `Write` fails before writing a byte and everything else,
`Sync` included, succeeds. -/
def writeFails : PutEnv :=
  { recordTime := 101, closeErr := none, openErr := none, createTime := 102, createErr := none,
    writeLimit := some 0, syncErr := none, indexTime := 103 }

/-- What every state reached by calls that returned nil satisfies: the current file is an
allocated, open, writable file value, registered in the segment table under its own name, its
file exists, and the file of every index entry is a key of the segment table. -/
structure Live (s : storage) : Prop where
  inRange : s.currentFile < s.files.length
  isOpen : (deref s.files s.currentFile).closed = false
  writable : (deref s.files s.currentFile).writable = true
  registered : mapGet s.dataFiles (deref s.files s.currentFile).name = some s.currentFile
  onDisk : (mapGet s.disk (deref s.files s.currentFile).name).isSome = true
  indexed : ∀ k e, mapGet s.keydir k = some e → (mapGet s.dataFiles e.File).isSome = true

/-- The offset of the current file value is the end of its file, and the size counter is the
length of that file: what `Put` leaves behind and a `Get` may undo. -/
def AtEnd (s : storage) : Prop :=
  ∃ c, mapGet s.disk (deref s.files s.currentFile).name = some c ∧
    (deref s.files s.currentFile).offset = c.length ∧ c.length = s.currentFileSizeInBytes

/-- The frame `GenerateCaskRecord` returns for the record of a `Put` call. -/
def Call.frameOf : Call → Option (List UInt8)
  | .put key value env => (Record.GenerateCaskRecord { Key := key, Value := value }
      env.recordTime).1
  | .get _ _ => none

/-- The frames of the `Put` calls of a sequence, in call order. -/
def framesOf (calls : List Call) : List (List UInt8) := calls.filterMap Call.frameOf

/-- The segments in creation order hold consecutive runs of `frames`: all but the current
one hold the groups `gs`, the current one the group `g`, each the concatenation of the frames
of its group, and the groups in order make up `frames`. -/
def Partitioned (s : storage) (frames : List (List UInt8)) : Prop :=
  ∃ (ns : List FileName) (gs : List (List (List UInt8))) (g : List (List UInt8)),
    s.createdNames = ns ++ [(deref s.files s.currentFile).name] ∧
    ns.map s.disk.content = gs.map List.flatten ∧
    s.disk.content (deref s.files s.currentFile).name = g.flatten ∧
    (gs ++ [g]).flatten = frames

/-- Put `a`, put `b`, get `a`: one-byte keys and values, every operation succeeding. -/
def putPutGet : List Call :=
  [.put [97] [1] (PutEnv.ok 101 102 103), .put [98] [2] (PutEnv.ok 104 105 106),
   .get [97] none]

/-- An environment in which every file operation succeeds and the clock reads 100 at
`createDataFile`, as it did when the engine of `fresh` was created. -/
def clockRepeats : PutEnv := PutEnv.ok 104 100 106

/-! # Lemmas -/

/-! ## The record codec -/

theorem copyAt_append (a z src : List UInt8) (off : Nat) (h : off = a.length)
    (hs : src.length ≤ z.length) :
    copyAt (a ++ z) off src = a ++ (src ++ z.drop src.length) := by
  subst h
  simp only [copyAt, List.length_append, List.take_left, List.append_assoc,
    List.append_cancel_left_eq]
  rw [List.take_of_length_le (by omega), List.drop_append]

theorem copyAt_replicate (a src : List UInt8) (n off : Nat) (hoff : off = a.length)
    (h : src.length ≤ n) :
    copyAt (a ++ List.replicate n 0) off src = (a ++ src) ++ List.replicate (n - src.length) 0 := by
  rw [copyAt_append a _ src off hoff (by simpa using h), List.drop_replicate, List.append_assoc]

theorem copyAt_zero (z src : List UInt8) (h : src.length ≤ z.length) :
    copyAt z 0 src = src ++ z.drop src.length := by
  have := copyAt_append [] z src 0 rfl h
  simpa only [List.nil_append] using this

theorem PutUint32_length (v : Nat) : (PutUint32 v).length = 4 := rfl

theorem PutUint64_length (v : Nat) : (PutUint64 v).length = 8 := rfl

theorem take_PutUint32 (v : Nat) (l : List UInt8) : (PutUint32 v ++ l).take 4 = PutUint32 v :=
  List.take_left (PutUint32 v) l

theorem drop_PutUint32 (v : Nat) (l : List UInt8) : (PutUint32 v ++ l).drop 4 = l :=
  List.drop_left (PutUint32 v) l

theorem frame_layout (ts ks vs key value : List UInt8) (hts : ts.length = 8)
    (hks : ks.length = 4) (hvs : vs.length = 4) :
    copyAt (copyAt (copyAt (copyAt (copyAt
      (List.replicate (HeaderSize + key.length + value.length) 0) 4 ts) (4 + 8) ks)
        (4 + 8 + 4) vs) (4 + 8 + 4 + 4) key) (4 + 8 + 4 + 4 + key.length) value =
      List.replicate 4 0 ++ (ts ++ (ks ++ (vs ++ (key ++ value)))) := by
  have e0 : HeaderSize + key.length + value.length = 4 + (16 + key.length + value.length) := by
    unfold HeaderSize; omega
  rw [e0, ← List.append_replicate_replicate,
    copyAt_replicate _ ts _ 4 (by rw [List.length_replicate]) (by omega),
    copyAt_replicate _ ks _ (4 + 8) (by rw [List.length_append, List.length_replicate, hts])
      (by omega),
    copyAt_replicate _ vs _ (4 + 8 + 4)
      (by rw [List.length_append, List.length_append, List.length_replicate, hts, hks])
      (by omega),
    copyAt_replicate _ key _ (4 + 8 + 4 + 4)
      (by rw [List.length_append, List.length_append, List.length_append,
        List.length_replicate, hts, hks, hvs])
      (by omega),
    copyAt_replicate _ value _ (4 + 8 + 4 + 4 + key.length)
      (by rw [List.length_append, List.length_append, List.length_append, List.length_append,
        List.length_replicate, hts, hks, hvs])
      (by omega)]
  have e1 : 16 + key.length + value.length - ts.length - ks.length - vs.length - key.length -
      value.length = 0 := by omega
  rw [e1, List.replicate_zero, List.append_nil]
  simp only [List.append_assoc]

theorem validate_eq_none_iff (r : Record) :
    r.validate = none ↔ r.Key.length ≤ MaxKeySize ∧ r.Value.length ≤ MaxValueSize := by
  unfold Record.validate
  split
  · simp; omega
  · split
    · simp; omega
    · simp; omega

/-- The frame of a valid record is the checksum of the body followed by the body. -/
theorem GenerateCaskRecord_eq (r : Record) (now : Int) (h : r.validate = none) :
    r.GenerateCaskRecord now =
      (some (PutUint32 (ChecksumIEEE (frameBody r now)) ++ frameBody r now),
        r.Value.length, none) := by
  have hl := frame_layout (PutUint64 (uint64 now)) (PutUint32 r.Key.length)
    (PutUint32 r.Value.length) r.Key r.Value (PutUint64_length _) (PutUint32_length _)
    (PutUint32_length _)
  have hd : List.drop 4 (List.replicate 4 (0 : UInt8) ++ frameBody r now) = frameBody r now :=
    List.drop_left (List.replicate 4 (0 : UInt8)) (frameBody r now)
  unfold Record.GenerateCaskRecord
  rw [h]
  simp only []
  rw [hl]
  change (some (copyAt (List.replicate 4 (0 : UInt8) ++ frameBody r now) 0
    (PutUint32 (ChecksumIEEE (List.drop 4 (List.replicate 4 (0 : UInt8) ++ frameBody r now))))),
      r.Value.length, none) = _
  rw [hd, copyAt_zero _ _
      (by rw [PutUint32_length, List.length_append, List.length_replicate]; omega),
    PutUint32_length, hd]

/-- A record that fails validation produces the Go triple `(nil, 0, err)`. -/
theorem GenerateCaskRecord_invalid (r : Record) (now : Int) (e : Error)
    (h : r.validate = some e) : r.GenerateCaskRecord now = (none, 0, some e) := by
  unfold Record.GenerateCaskRecord
  rw [h]

theorem frameBody_length (r : Record) (now : Int) :
    (frameBody r now).length = 16 + r.Key.length + r.Value.length := by
  simp only [frameBody, List.length_append, PutUint64_length, PutUint32_length]
  omega

theorem byte_toNat (n : Nat) : (byte n).toNat = n % 256 := by
  unfold byte
  exact UInt8.toNat_ofNat_of_lt (Nat.mod_lt _ (by decide))

theorem bigEndian_PutUint32 (v : Nat) : bigEndian (PutUint32 v) = v % 2 ^ 32 := by
  simp only [bigEndian, PutUint32, List.foldl_cons, List.foldl_nil, byte_toNat,
    Nat.shiftRight_eq_div_pow]
  omega

theorem bigEndian_PutUint64 (v : Nat) : bigEndian (PutUint64 v) = v % 2 ^ 64 := by
  simp only [bigEndian, PutUint64, List.foldl_cons, List.foldl_nil, byte_toNat,
    Nat.shiftRight_eq_div_pow]
  omega

/-! ## CRC-32 -/

theorem shiftRight_xor (a b n : Nat) : (a ^^^ b) >>> n = (a >>> n) ^^^ (b >>> n) := by
  apply Nat.eq_of_testBit_eq
  intro i
  simp [Nat.testBit_shiftRight]

set_option maxRecDepth 1000000 in
theorem tableIndexOfTop_IEEETable : ∀ i < 256, tableIndexOfTop (IEEETable i >>> 24) = i := by
  decide

theorem tableStep_lt (c : Nat) (h : c < 2 ^ 32) : tableStep c < 2 ^ 32 := by
  unfold tableStep
  have h1 : c >>> 1 < 2 ^ 32 := by rw [Nat.shiftRight_eq_div_pow]; omega
  split
  · exact Nat.xor_lt_two_pow h1 (by decide)
  · exact h1

theorem IEEETable_lt (i : Nat) (h : i < 2 ^ 32) : IEEETable i < 2 ^ 32 := by
  unfold IEEETable
  exact tableStep_lt _ (tableStep_lt _ (tableStep_lt _ (tableStep_lt _ (tableStep_lt _
    (tableStep_lt _ (tableStep_lt _ (tableStep_lt _ h)))))))

theorem IEEETable_top_inj (i j : Nat) (hi : i < 256) (hj : j < 256)
    (h : IEEETable i >>> 24 = IEEETable j >>> 24) : i = j := by
  rw [← tableIndexOfTop_IEEETable i hi, ← tableIndexOfTop_IEEETable j hj, h]

theorem crcIndex_lt (c : Nat) (v : UInt8) : (c % 256) ^^^ v.toNat < 2 ^ 8 :=
  Nat.xor_lt_two_pow (Nat.mod_lt _ (by decide)) v.toNat_lt

theorem crcStep_lt (c : Nat) (v : UInt8) (h : c < 2 ^ 32) : crcStep c v < 2 ^ 32 := by
  unfold crcStep
  apply Nat.xor_lt_two_pow
  · exact IEEETable_lt _ (lt_trans (crcIndex_lt c v) (by decide))
  · rw [Nat.shiftRight_eq_div_pow]; omega

theorem crcStep_top (c : Nat) (v : UInt8) (h : c < 2 ^ 32) :
    crcStep c v >>> 24 = IEEETable ((c % 256) ^^^ v.toNat) >>> 24 := by
  unfold crcStep
  rw [shiftRight_xor]
  have : c >>> 8 >>> 24 = 0 := by
    rw [Nat.shiftRight_eq_div_pow, Nat.shiftRight_eq_div_pow]; omega
  rw [this, Nat.xor_zero]

theorem crcStep_index_eq (c d : Nat) (v w : UInt8) (hc : c < 2 ^ 32) (hd : d < 2 ^ 32)
    (h : crcStep c v = crcStep d w) : (c % 256) ^^^ v.toNat = (d % 256) ^^^ w.toNat := by
  apply IEEETable_top_inj _ _ (crcIndex_lt c v) (crcIndex_lt d w)
  rw [← crcStep_top c v hc, ← crcStep_top d w hd, h]

/-- From one state, two different bytes lead to two different states. -/
theorem crcStep_byte_inj (c : Nat) (v w : UInt8) (hc : c < 2 ^ 32)
    (h : crcStep c v = crcStep c w) : v = w := by
  have := crcStep_index_eq c c v w hc hc h
  exact UInt8.ext (Nat.xor_right_injective this)

/-- With one byte, two different states lead to two different states. -/
theorem crcStep_state_inj (c d : Nat) (v : UInt8) (hc : c < 2 ^ 32) (hd : d < 2 ^ 32)
    (h : crcStep c v = crcStep d v) : c = d := by
  have hx := crcStep_index_eq c d v v hc hd h
  have hlow : c % 256 = d % 256 := Nat.xor_left_injective hx
  unfold crcStep at h
  rw [hx] at h
  have hhigh : c >>> 8 = d >>> 8 := Nat.xor_right_injective h
  rw [Nat.shiftRight_eq_div_pow, Nat.shiftRight_eq_div_pow] at hhigh
  omega

theorem crcRun_lt (p : List UInt8) : ∀ c, c < 2 ^ 32 → p.foldl crcStep c < 2 ^ 32 := by
  induction p with
  | nil => intro c h; exact h
  | cons v p ih => intro c h; exact ih _ (crcStep_lt c v h)

theorem crcRun_state_inj (p : List UInt8) :
    ∀ c d, c < 2 ^ 32 → d < 2 ^ 32 → p.foldl crcStep c = p.foldl crcStep d → c = d := by
  induction p with
  | nil => intro c d _ _ h; exact h
  | cons v p ih =>
    intro c d hc hd h
    exact crcStep_state_inj c d v hc hd (ih _ _ (crcStep_lt c v hc) (crcStep_lt d v hd) h)

theorem ChecksumIEEE_lt (p : List UInt8) : ChecksumIEEE p < 2 ^ 32 := by
  unfold ChecksumIEEE simpleUpdate
  exact Nat.xor_lt_two_pow (crcRun_lt p _ (by decide)) (by decide)

/-- Two messages that differ in exactly one byte have different checksums. -/
theorem ChecksumIEEE_single_byte (pre post : List UInt8) (x b : UInt8) (hb : b ≠ x) :
    ChecksumIEEE (pre ++ b :: post) ≠ ChecksumIEEE (pre ++ x :: post) := by
  unfold ChecksumIEEE simpleUpdate
  intro h
  have h1 := Nat.xor_left_injective h
  rw [List.foldl_append, List.foldl_append, List.foldl_cons, List.foldl_cons] at h1
  have hs : List.foldl crcStep (0 ^^^ 0xffffffff) pre < 2 ^ 32 := crcRun_lt pre _ (by decide)
  have h2 := crcRun_state_inj post _ _ (crcStep_lt _ b hs) (crcStep_lt _ x hs) h1
  exact hb (crcStep_byte_inj _ b x hs h2)

/-! ## Go maps -/

theorem mapGet_filter_ne {κ ν : Type} [DecidableEq κ] (m : List (κ × ν)) (k k1 : κ)
    (h : k1 ≠ k) : mapGet (m.filter (fun p => p.1 ≠ k)) k1 = mapGet m k1 := by
  induction m with
  | nil => rfl
  | cons p rest ih =>
    obtain ⟨a, b⟩ := p
    by_cases hak : a = k
    · have hne : a ≠ k1 := fun e => h (e ▸ hak)
      simp only [List.filter, hak, ne_eq, not_true_eq_false, decide_False, mapGet]
      rw [if_neg (hak ▸ hne)]
      exact ih
    · simp only [List.filter, ne_eq, hak, not_false_eq_true, decide_True, mapGet]
      rw [ih]

theorem mapGet_mapSet_self {κ ν : Type} [DecidableEq κ] (m : List (κ × ν)) (k : κ) (v : ν) :
    mapGet (mapSet m k v) k = some v := by
  simp only [mapSet, mapGet, if_true]

theorem mapGet_mapSet_ne {κ ν : Type} [DecidableEq κ] (m : List (κ × ν)) (k k1 : κ) (v : ν)
    (h : k1 ≠ k) : mapGet (mapSet m k v) k1 = mapGet m k1 := by
  simp only [mapSet, mapGet]
  rw [if_neg (fun e => h e.symm)]
  exact mapGet_filter_ne m k k1 h

/-! ## File values -/

theorem deref_set_self (files : List OsFile) (p : Nat) (f : OsFile) (h : p < files.length) :
    deref (files.set p f) p = f := by
  unfold deref
  rw [List.getD_eq_getElem?_getD, List.getElem?_set_self (by simpa using h)]
  rfl

theorem deref_set_ne (files : List OsFile) (p q : Nat) (f : OsFile) (h : q ≠ p) :
    deref (files.set p f) q = deref files q := by
  unfold deref
  rw [List.getD_eq_getElem?_getD, List.getD_eq_getElem?_getD, List.getElem?_set_ne (Ne.symm h)]

theorem deref_append_left (files : List OsFile) (q : Nat) (f : OsFile) (h : q < files.length) :
    deref (files ++ [f]) q = deref files q := by
  unfold deref
  rw [List.getD_eq_getElem?_getD, List.getD_eq_getElem?_getD, List.getElem?_append_left h]

theorem deref_append_new (files : List OsFile) (f : OsFile) :
    deref (files ++ [f]) files.length = f := by
  unfold deref
  rw [List.getD_eq_getElem?_getD, List.getElem?_append_right (le_refl _)]
  simp

/-- The names and modes of the file values, which no operation on a file value changes. -/
theorem created_set (files : List OsFile) (p : Nat) (f : OsFile)
    (hn : f.name = (deref files p).name) (hw : f.writable = (deref files p).writable) :
    ((files.set p f).filter (fun f => f.writable)).map (fun f => f.name) =
      (files.filter (fun f => f.writable)).map (fun f => f.name) := by
  induction files generalizing p with
  | nil => rfl
  | cons g rest ih =>
    cases p with
    | zero =>
      have hn0 : f.name = g.name := hn
      have hw0 : f.writable = g.writable := hw
      simp only [List.set_cons_zero, List.filter_cons, hw0]
      split <;> simp [hn0]
    | succ p =>
      have := ih p hn hw
      simp only [List.set_cons_succ, List.filter_cons]
      split
      · simp only [List.map_cons, this]
      · exact this

/-! ## What the file operations leave alone -/

theorem createdNames_set (s : storage) (p : Nat) (f : OsFile)
    (hn : f.name = (deref s.files p).name) (hw : f.writable = (deref s.files p).writable) :
    storage.createdNames { s with files := s.files.set p f } = s.createdNames :=
  created_set s.files p f hn hw

theorem fileClose_keydir (s : storage) (p : Nat) (e : Option Error) :
    (fileClose s p e).2.keydir = s.keydir := by
  unfold fileClose; dsimp only; split_ifs <;> rfl

theorem fileClose_createdNames (s : storage) (p : Nat) (e : Option Error) :
    (fileClose s p e).2.createdNames = s.createdNames := by
  unfold fileClose
  dsimp only
  split_ifs
  · rfl
  · exact createdNames_set s p _ rfl rfl

theorem osOpen_keydir (s : storage) (n : FileName) (e : Option Error) :
    (osOpen s n e).2.2.keydir = s.keydir := by
  unfold osOpen
  split
  · rfl
  · split <;> rfl

theorem osOpen_createdNames (s : storage) (n : FileName) (e : Option Error) :
    (osOpen s n e).2.2.createdNames = s.createdNames := by
  unfold osOpen
  split
  · rfl
  · split
    · rfl
    · simp [storage.createdNames, List.filter_append]

theorem osCreate_keydir (s : storage) (n : FileName) (e : Option Error) :
    (osCreate s n e).2.2.keydir = s.keydir := by
  unfold osCreate
  split <;> rfl

theorem osCreate_createdNames (s : storage) (n : FileName) (e : Option Error) :
    ∃ ext, (osCreate s n e).2.2.createdNames = s.createdNames ++ ext := by
  unfold osCreate
  split
  · exact ⟨[], (List.append_nil _).symm⟩
  · exact ⟨[n], by simp [storage.createdNames, List.filter_append]⟩

theorem fileWrite_keydir (s : storage) (p : Nat) (data : List UInt8) (l : Option Nat) :
    (fileWrite s p data l).2.keydir = s.keydir := by
  unfold fileWrite
  dsimp only
  split_ifs <;> rfl

theorem fileWrite_createdNames (s : storage) (p : Nat) (data : List UInt8) (l : Option Nat) :
    (fileWrite s p data l).2.createdNames = s.createdNames := by
  unfold fileWrite
  dsimp only
  split_ifs
  · rfl
  · rfl
  · rfl
  · exact created_set s.files p _ rfl rfl

theorem rollover_keydir (s : storage) (env : PutEnv) :
    (s.rollover env).2.keydir = s.keydir := by
  unfold storage.rollover storage.createDataFile
  have h1 := fileClose_keydir s s.currentFile env.closeErr
  generalize fileClose s s.currentFile env.closeErr = r1 at h1
  obtain ⟨e1, s1⟩ := r1
  cases e1 with
  | some e => exact h1
  | none =>
    simp only []
    have h2 := osOpen_keydir s1 (deref s.files s.currentFile).name env.openErr
    generalize osOpen s1 (deref s.files s.currentFile).name env.openErr = r2 at h2
    obtain ⟨p2, e2, s2⟩ := r2
    cases e2 with
    | some e => exact h2.trans h1
    | none =>
      simp only []
      have h3 := osCreate_keydir
        { s2 with dataFiles := mapSet s2.dataFiles (deref s.files s.currentFile).name p2 }
        { dir := s2.dir, stamp := env.createTime } env.createErr
      generalize osCreate
        { s2 with dataFiles := mapSet s2.dataFiles (deref s.files s.currentFile).name p2 }
        { dir := s2.dir, stamp := env.createTime } env.createErr = r3 at h3
      obtain ⟨p3, e3, s3⟩ := r3
      cases e3 with
      | some e => exact h3.trans (h2.trans h1)
      | none => exact h3.trans (h2.trans h1)

theorem rollover_createdNames (s : storage) (env : PutEnv) :
    ∃ ext, (s.rollover env).2.createdNames = s.createdNames ++ ext := by
  unfold storage.rollover storage.createDataFile
  have h1 := fileClose_createdNames s s.currentFile env.closeErr
  generalize fileClose s s.currentFile env.closeErr = r1 at h1
  obtain ⟨e1, s1⟩ := r1
  cases e1 with
  | some e => exact ⟨[], by rw [List.append_nil]; exact h1⟩
  | none =>
    simp only []
    have h2 := osOpen_createdNames s1 (deref s.files s.currentFile).name env.openErr
    generalize osOpen s1 (deref s.files s.currentFile).name env.openErr = r2 at h2
    obtain ⟨p2, e2, s2⟩ := r2
    cases e2 with
    | some e => exact ⟨[], by rw [List.append_nil]; exact h2.trans h1⟩
    | none =>
      simp only []
      obtain ⟨ext, h3⟩ := osCreate_createdNames
        { s2 with dataFiles := mapSet s2.dataFiles (deref s.files s.currentFile).name p2 }
        { dir := s2.dir, stamp := env.createTime } env.createErr
      generalize osCreate
        { s2 with dataFiles := mapSet s2.dataFiles (deref s.files s.currentFile).name p2 }
        { dir := s2.dir, stamp := env.createTime } env.createErr = r3 at h3
      obtain ⟨p3, e3, s3⟩ := r3
      have h4 : storage.createdNames
          { s2 with dataFiles := mapSet s2.dataFiles (deref s.files s.currentFile).name p2 } =
          s.createdNames := h2.trans h1
      rw [h4] at h3
      cases e3 with
      | some e => exact ⟨ext, h3⟩
      | none => exact ⟨ext, h3⟩

theorem rolled_keydir (s : storage) (n : Nat) (env : PutEnv) :
    (s.rolled n env).2.keydir = s.keydir := by
  unfold storage.rolled
  split
  · exact rollover_keydir s env
  · rfl

theorem rolled_createdNames (s : storage) (n : Nat) (env : PutEnv) :
    ∃ ext, (s.rolled n env).2.createdNames = s.createdNames ++ ext := by
  unfold storage.rolled
  split
  · exact rollover_createdNames s env
  · exact ⟨[], (List.append_nil _).symm⟩

/-- A `Put` of a record that passes validation, in two steps. -/
theorem Put_valid (s : storage) (key value : List UInt8) (env : PutEnv)
    (h : Record.validate { Key := key, Value := value } = none) :
    s.Put key value env =
      match s.rolled (frame { Key := key, Value := value } env.recordTime).length env with
      | (some err, s1) => (some err, s1)
      | (none, s1) =>
        s1.append key (frame { Key := key, Value := value } env.recordTime) value.length env := by
  unfold storage.Put
  dsimp only
  rw [GenerateCaskRecord_eq _ _ h]
  rfl

/-- A `Put` of a record that fails validation returns the error and the state it was given. -/
theorem Put_invalid (s : storage) (key value : List UInt8) (env : PutEnv) (e : Error)
    (h : Record.validate { Key := key, Value := value } = some e) :
    s.Put key value env = (some e, s) := by
  unfold storage.Put
  dsimp only
  rw [GenerateCaskRecord_invalid _ _ e h]


theorem append_keydir_of_error (s : storage) (key data : List UInt8) (n : Nat) (env : PutEnv)
    (h : (s.append key data n env).1 ≠ none) : (s.append key data n env).2.keydir = s.keydir := by
  unfold storage.append at h ⊢
  dsimp only at h ⊢
  split
  · exact fileWrite_keydir _ _ _ _
  · rename_i hs
    rw [hs] at h
    exact absurd rfl h

theorem append_keydir_other (s : storage) (key data : List UInt8) (n : Nat) (env : PutEnv)
    (k : List UInt8) (hk : k ≠ key) :
    mapGet (s.append key data n env).2.keydir k = mapGet s.keydir k := by
  unfold storage.append
  dsimp only
  split
  · rw [fileWrite_keydir]
  · dsimp only
    rw [mapGet_mapSet_ne _ _ _ _ hk, fileWrite_keydir]

theorem append_createdNames (s : storage) (key data : List UInt8) (n : Nat) (env : PutEnv) :
    (s.append key data n env).2.createdNames = s.createdNames := by
  unfold storage.append
  dsimp only
  split
  · exact fileWrite_createdNames _ _ _ _
  · exact fileWrite_createdNames _ _ _ _

/-- A `Put` that returns an error leaves the key index as it was. -/
theorem Put_keydir_of_error (s : storage) (key value : List UInt8) (env : PutEnv)
    (h : (s.Put key value env).1 ≠ none) : (s.Put key value env).2.keydir = s.keydir := by
  cases hv : Record.validate { Key := key, Value := value } with
  | some e => rw [Put_invalid s key value env e hv]
  | none =>
    rw [Put_valid s key value env hv] at h ⊢
    have h1 := rolled_keydir s (frame { Key := key, Value := value } env.recordTime).length env
    generalize s.rolled (frame { Key := key, Value := value } env.recordTime).length env = r
      at h h1 ⊢
    obtain ⟨e1, s1⟩ := r
    cases e1 with
    | some e => exact h1
    | none => exact (append_keydir_of_error s1 _ _ _ _ h).trans h1

/-- A `Put` leaves the index entries of the other keys as they were. -/
theorem Put_keydir_other (s : storage) (key value : List UInt8) (env : PutEnv)
    (k : List UInt8) (hk : k ≠ key) :
    mapGet (s.Put key value env).2.keydir k = mapGet s.keydir k := by
  cases hv : Record.validate { Key := key, Value := value } with
  | some e => rw [Put_invalid s key value env e hv]
  | none =>
    rw [Put_valid s key value env hv]
    have h1 := rolled_keydir s (frame { Key := key, Value := value } env.recordTime).length env
    generalize s.rolled (frame { Key := key, Value := value } env.recordTime).length env = r
      at h1 ⊢
    obtain ⟨e1, s1⟩ := r
    cases e1 with
    | some e => exact congrArg (fun m => mapGet m k) h1
    | none =>
      exact (append_keydir_other s1 _ _ _ _ k hk).trans (congrArg (fun m => mapGet m k) h1)

/-- Every `Put` keeps the list of created segment names and may add to its end. -/
theorem Put_createdNames (s : storage) (key value : List UInt8) (env : PutEnv) :
    ∃ ext, (s.Put key value env).2.createdNames = s.createdNames ++ ext := by
  cases hv : Record.validate { Key := key, Value := value } with
  | some e => rw [Put_invalid s key value env e hv]; exact ⟨[], (List.append_nil _).symm⟩
  | none =>
    rw [Put_valid s key value env hv]
    obtain ⟨ext, h1⟩ :=
      rolled_createdNames s (frame { Key := key, Value := value } env.recordTime).length env
    generalize s.rolled (frame { Key := key, Value := value } env.recordTime).length env = r
      at h1 ⊢
    obtain ⟨e1, s1⟩ := r
    cases e1 with
    | some e => exact ⟨ext, h1⟩
    | none => exact ⟨ext, (append_createdNames s1 _ _ _ _).trans h1⟩

theorem fileSeek_keydir (s : storage) (p pos : Nat) : (fileSeek s p pos).keydir = s.keydir := by
  unfold fileSeek; dsimp only; split_ifs <;> rfl

theorem fileRead_keydir (s : storage) (p n : Nat) (e : Option Error) :
    (fileRead s p n e).2.2.keydir = s.keydir := by
  unfold fileRead
  cases e <;> dsimp only <;> split_ifs <;> rfl

theorem Get_absent (s : storage) (key : List UInt8) (e : Option Error)
    (h : mapGet s.keydir key = none) : s.Get key e = ((none, none), s) := by
  unfold storage.Get
  rw [h]

theorem Get_not_found (s : storage) (key : List UInt8) (e : Option Error) (entry : KeydirEntry)
    (h : mapGet s.keydir key = some entry) (hf : mapGet s.dataFiles entry.File = none) :
    s.Get key e = ((none, some "file not found"), s) := by
  unfold storage.Get
  rw [h]
  dsimp only
  rw [hf]

theorem Get_found (s : storage) (key : List UInt8) (e : Option Error) (entry : KeydirEntry)
    (file : Nat) (h : mapGet s.keydir key = some entry)
    (hf : mapGet s.dataFiles entry.File = some file) :
    s.Get key e =
      match fileRead (fileSeek s file entry.ValuePos) file entry.ValueSize e with
      | (_, some err, s) => ((none, some err), s)
      | (buffer, none, s) => ((some buffer, none), s) := by
  unfold storage.Get
  rw [h]
  dsimp only
  rw [hf]

/-- A `Get` leaves the key index as it was. -/
theorem Get_keydir (s : storage) (key : List UInt8) (e : Option Error) :
    (s.Get key e).2.keydir = s.keydir := by
  cases h : mapGet s.keydir key with
  | none => rw [Get_absent s key e h]
  | some entry =>
    cases hf : mapGet s.dataFiles entry.File with
    | none => rw [Get_not_found s key e entry h hf]
    | some file =>
      rw [Get_found s key e entry file h hf]
      have h1 := fileRead_keydir (fileSeek s file entry.ValuePos) file entry.ValueSize e
      rw [fileSeek_keydir] at h1
      generalize fileRead (fileSeek s file entry.ValuePos) file entry.ValueSize e = r at h1 ⊢
      obtain ⟨b, e2, s2⟩ := r
      cases e2 <;> exact h1

theorem content_mapSet_self (d : Disk) (n : FileName) (c : List UInt8) :
    Disk.content (mapSet d n c) n = c := by
  unfold Disk.content
  rw [mapGet_mapSet_self]; rfl

theorem content_mapSet_ne (d : Disk) (n n1 : FileName) (c : List UInt8) (h : n1 ≠ n) :
    Disk.content (mapSet d n c) n1 = Disk.content d n1 := by
  unfold Disk.content
  rw [mapGet_mapSet_ne _ _ _ _ h]

theorem content_of_mapGet (d : Disk) (n : FileName) (c : List UInt8) (h : mapGet d n = some c) :
    Disk.content d n = c := by
  unfold Disk.content
  rw [h]; rfl

/-- Moving the offset of a file value changes neither its name nor whether it is closed. -/
theorem deref_set_offset (files : List OsFile) (p q x : Nat) :
    (deref (files.set p { deref files p with offset := x }) q).name = (deref files q).name ∧
    (deref (files.set p { deref files p with offset := x }) q).closed = (deref files q).closed ∧
    (deref (files.set p { deref files p with offset := x }) q).writable =
      (deref files q).writable := by
  by_cases hq : q = p
  · subst hq
    by_cases hl : q < files.length
    · rw [deref_set_self _ _ _ hl]; exact ⟨rfl, rfl, rfl⟩
    · rw [List.set_eq_of_length_le (by omega)]; exact ⟨rfl, rfl, rfl⟩
  · rw [deref_set_ne _ _ _ _ hq]; exact ⟨rfl, rfl, rfl⟩

/-- The predicate `Readable` only looks at the index, the segment table, the disk, and the names and
open flags of the file values. -/
theorem Readable.of_same (s t : storage) (m : List UInt8 → Option (List UInt8))
    (h : Readable s m) (hk : t.keydir = s.keydir) (hd : t.dataFiles = s.dataFiles)
    (hdisk : t.disk = s.disk) (hlen : t.files.length = s.files.length)
    (hf : ∀ q, (deref t.files q).name = (deref s.files q).name ∧
      (deref t.files q).closed = (deref s.files q).closed) : Readable t m := by
  refine ⟨?_, ?_, ?_⟩
  · intro n p hp
    rw [hd] at hp
    obtain ⟨h1, h2, h3⟩ := h.handle n p hp
    exact ⟨by omega, (hf p).1.trans h2, (hf p).2.trans h3⟩
  · intro k hk1
    rw [hk]; exact h.absent k hk1
  · intro k v hv
    rw [hk, hd, hdisk]; exact h.present k v hv

theorem fileSeek_readable (s : storage) (m : List UInt8 → Option (List UInt8)) (p pos : Nat)
    (h : Readable s m) : Readable (fileSeek s p pos) m := by
  unfold fileSeek
  dsimp only
  split_ifs
  · exact h
  · exact Readable.of_same s _ m h rfl rfl rfl (List.length_set _ _ _)
      (fun q => ⟨(deref_set_offset s.files p q pos).1, (deref_set_offset s.files p q pos).2.1⟩)

theorem fileRead_readable (s : storage) (m : List UInt8 → Option (List UInt8)) (p n : Nat)
    (e : Option Error) (h : Readable s m) : Readable (fileRead s p n e).2.2 m := by
  unfold fileRead
  cases e <;> dsimp only <;> split_ifs <;> first
    | exact h
    | exact Readable.of_same s _ m h rfl rfl rfl (List.length_set _ _ _)
        (fun q => ⟨(deref_set_offset s.files p q _).1, (deref_set_offset s.files p q _).2.1⟩)

/-- A `Get` keeps what `Get` relies on. -/
theorem Get_readable (s : storage) (m : List UInt8 → Option (List UInt8)) (key : List UInt8)
    (e : Option Error) (h : Readable s m) : Readable (s.Get key e).2 m := by
  cases hk : mapGet s.keydir key with
  | none => rw [Get_absent s key e hk]; exact h
  | some entry =>
    cases hf : mapGet s.dataFiles entry.File with
    | none => rw [Get_not_found s key e entry hk hf]; exact h
    | some file =>
      rw [Get_found s key e entry file hk hf]
      have h1 := fileRead_readable (fileSeek s file entry.ValuePos) m file entry.ValueSize e
        (fileSeek_readable s m file entry.ValuePos h)
      generalize fileRead (fileSeek s file entry.ValuePos) file entry.ValueSize e = r at h1 ⊢
      obtain ⟨b, e2, s2⟩ := r
      cases e2 <;> exact h1

/-- In a readable state, `Get` of a key that stands for `v` returns `v` and a nil error. -/
theorem Get_of_readable (s : storage) (m : List UInt8 → Option (List UInt8))
    (key v : List UInt8) (h : Readable s m) (hv : m key = some v) :
    (s.Get key none).1 = (some v, none) := by
  obtain ⟨entry, hk, hsize, hfile, hle, hval⟩ := h.present key v hv
  obtain ⟨file, hf⟩ := Option.isSome_iff_exists.1 hfile
  obtain ⟨hlt, hname, hopen⟩ := h.handle _ _ hf
  rw [Get_found s key none entry file hk hf]
  have hseek : fileSeek s file entry.ValuePos =
      { s with files := s.files.set file { deref s.files file with offset := entry.ValuePos } } := by
    unfold fileSeek
    dsimp only
    rw [if_neg (by rw [hopen]; exact Bool.false_ne_true)]
  rw [hseek]
  unfold fileRead
  dsimp only
  rw [deref_set_self _ _ _ hlt]
  dsimp only
  rw [if_neg (by rw [hopen]; exact Bool.false_ne_true), hname, hval]
  by_cases h0 : entry.ValueSize = 0
  · rw [if_pos h0]
    have : v = [] := List.length_eq_zero.1 (by omega)
    rw [this]
  · rw [if_neg h0, if_neg (by intro hnil; rw [hnil] at hsize; exact h0 (by simpa using hsize))]
    dsimp only
    rw [hsize, Nat.sub_self, List.replicate_zero, List.append_nil]

/-- The frame of a valid record ends with the value, after the header and the key. -/
theorem frame_split (key value : List UInt8) (now : Int) :
    ∃ hdr : List UInt8, frame { Key := key, Value := value } now = hdr ++ value ∧
      hdr.length = HeaderSize + key.length := by
  refine ⟨PutUint32 (ChecksumIEEE (frameBody { Key := key, Value := value } now)) ++
    (PutUint64 (uint64 now) ++ (PutUint32 key.length ++ (PutUint32 value.length ++ key))), ?_, ?_⟩
  · simp only [frame, frameBody, List.append_assoc]
  · simp only [List.length_append, PutUint32_length, PutUint64_length, HeaderSize]
    omega

/-- A successful `Write` of a whole frame at the end of the file appends it. -/
theorem fileWrite_at_end (s : storage) (p : Nat) (data c : List UInt8)
    (hopen : (deref s.files p).closed = false) (hw : (deref s.files p).writable = true)
    (hc : mapGet s.disk (deref s.files p).name = some c)
    (hoff : (deref s.files p).offset = c.length) (hdata : data ≠ []) :
    fileWrite s p data none = (none, { s with
      disk := mapSet s.disk (deref s.files p).name (c ++ data)
      files := s.files.set p
        { deref s.files p with offset := (deref s.files p).offset + data.length } }) := by
  unfold fileWrite
  dsimp only
  rw [if_neg (by rw [hopen]; exact Bool.false_ne_true), if_neg (by rw [hw]; decide),
    if_neg hdata, content_of_mapGet _ _ _ hc, hoff, Nat.sub_self, List.replicate_zero,
    List.append_nil, List.take_length, List.drop_of_length_le (by omega), List.append_nil]

/-- The end of `Put` in an appendable state: the frame goes to the end of the current file and
the key stands for the new value. -/
theorem append_inv (s : storage) (m : List UInt8 → Option (List UInt8))
    (key value : List UInt8) (env : PutEnv) (hr : Readable s m) (ha : Appendable s)
    (henv : env.succeeds) :
    (s.append key (frame { Key := key, Value := value } env.recordTime) value.length env).1 =
      none ∧
    Readable (s.append key (frame { Key := key, Value := value } env.recordTime)
      value.length env).2 (fun k => if k = key then some value else m k) ∧
    Appendable (s.append key (frame { Key := key, Value := value } env.recordTime)
      value.length env).2 ∧
    (s.append key (frame { Key := key, Value := value } env.recordTime)
      value.length env).2.currentFileSizeInBytes = s.currentFileSizeInBytes +
        (frame { Key := key, Value := value } env.recordTime).length ∧
    (s.append key (frame { Key := key, Value := value } env.recordTime)
      value.length env).2.currentFile = s.currentFile := by
  obtain ⟨hdr, hsplit, hhdr⟩ := frame_split key value env.recordTime
  obtain ⟨c, hc, hclen⟩ := ha.size
  obtain ⟨_, _, _, hwl, hsync⟩ := henv
  have hne : frame { Key := key, Value := value } env.recordTime ≠ [] := by
    intro h0
    have := congrArg List.length h0
    rw [hsplit, List.length_append, hhdr] at this
    simp [HeaderSize] at this
  have hw := fileWrite_at_end s s.currentFile _ c ha.isOpen ha.writable hc
    (by rw [ha.atEnd, hclen]) hne
  generalize hdata : frame { Key := key, Value := value } env.recordTime = data at *
  have happ : s.append key data value.length env = (none, { s with
      disk := mapSet s.disk (deref s.files s.currentFile).name (c ++ data)
      files := s.files.set s.currentFile
        { deref s.files s.currentFile with
          offset := (deref s.files s.currentFile).offset + data.length }
      currentFileSizeInBytes := s.currentFileSizeInBytes + data.length
      keydir := mapSet s.keydir key
        { File := (deref s.files s.currentFile).name
          ValueSize := value.length
          ValuePos := s.currentFileSizeInBytes + data.length - value.length
          Timestamp := env.indexTime } }) := by
    unfold storage.append
    dsimp only
    rw [hwl, hw, hsync]
    dsimp only
    unfold fileSync
    dsimp only
    rw [deref_set_self _ _ _ ha.inRange]
    dsimp only
    rw [if_neg (by rw [ha.isOpen]; exact Bool.false_ne_true)]
  rw [happ]
  dsimp only
  have hlen : data.length = hdr.length + value.length := by rw [hsplit, List.length_append]
  refine ⟨rfl, ⟨?_, ?_, ?_⟩, ⟨?_, ?_, ?_, ?_, ?_, ?_, ?_⟩, rfl, rfl⟩
  · intro n p hp
    obtain ⟨h1, h2, h3⟩ := hr.handle n p hp
    have hd := deref_set_offset s.files s.currentFile p
      ((deref s.files s.currentFile).offset + data.length)
    exact ⟨by rw [List.length_set]; exact h1, hd.1.trans h2, hd.2.1.trans h3⟩
  · intro k hk
    by_cases hkk : k = key
    · rw [if_pos hkk] at hk; exact absurd hk (by simp)
    · rw [if_neg hkk] at hk
      show mapGet (mapSet s.keydir key _) k = none
      rw [mapGet_mapSet_ne _ _ _ _ hkk]; exact hr.absent k hk
  · intro k v hv
    by_cases hkk : k = key
    · rw [if_pos hkk] at hv
      have hvv : value = v := Option.some.inj hv
      subst hvv
      refine ⟨_, by rw [hkk]; exact mapGet_mapSet_self _ _ _, rfl, ?_, ?_, ?_⟩
      · show (mapGet s.dataFiles (deref s.files s.currentFile).name).isSome = true
        rw [ha.registered]; rfl
      · show s.currentFileSizeInBytes + data.length - value.length + value.length ≤
          (Disk.content (mapSet s.disk _ (c ++ data)) (deref s.files s.currentFile).name).length
        rw [content_mapSet_self, List.length_append]; omega
      · show List.take value.length (List.drop
          (s.currentFileSizeInBytes + data.length - value.length)
          (Disk.content (mapSet s.disk _ (c ++ data)) (deref s.files s.currentFile).name)) = value
        rw [content_mapSet_self, hsplit, ← List.append_assoc]
        have : s.currentFileSizeInBytes + (hdr ++ value).length - value.length =
            (c ++ hdr).length := by
          rw [List.length_append, List.length_append]; omega
        rw [this, List.drop_left, List.take_length]
    · rw [if_neg hkk] at hv
      obtain ⟨e, h1, h2, h3, h4, h5⟩ := hr.present k v hv
      refine ⟨e, by
        show mapGet (mapSet s.keydir key _) k = some e
        rw [mapGet_mapSet_ne _ _ _ _ hkk]; exact h1, h2, h3, ?_, ?_⟩
      · show e.ValuePos + e.ValueSize ≤ (Disk.content (mapSet s.disk _ (c ++ data)) e.File).length
        by_cases hfile : e.File = (deref s.files s.currentFile).name
        · rw [hfile, content_mapSet_self, List.length_append]
          rw [hfile, content_of_mapGet _ _ _ hc] at h4
          omega
        · rw [content_mapSet_ne _ _ _ _ hfile]; exact h4
      · show List.take e.ValueSize (List.drop e.ValuePos
          (Disk.content (mapSet s.disk _ (c ++ data)) e.File)) = v
        by_cases hfile : e.File = (deref s.files s.currentFile).name
        · rw [hfile, content_mapSet_self]
          rw [hfile, content_of_mapGet _ _ _ hc] at h4 h5
          rw [List.drop_append_of_le_length (by omega),
            List.take_append_of_le_length (by rw [List.length_drop]; omega)]
          exact h5
        · rw [content_mapSet_ne _ _ _ _ hfile]; exact h5
  · show s.currentFile < (s.files.set s.currentFile _).length
    rw [List.length_set]; exact ha.inRange
  · show (deref (s.files.set s.currentFile _) s.currentFile).closed = false
    rw [deref_set_self _ _ _ ha.inRange]; exact ha.isOpen
  · show (deref (s.files.set s.currentFile _) s.currentFile).writable = true
    rw [deref_set_self _ _ _ ha.inRange]; exact ha.writable
  · show mapGet s.dataFiles (deref (s.files.set s.currentFile _) s.currentFile).name =
      some s.currentFile
    rw [deref_set_self _ _ _ ha.inRange]; exact ha.registered
  · show (deref (s.files.set s.currentFile _) s.currentFile).offset =
      s.currentFileSizeInBytes + data.length
    rw [deref_set_self _ _ _ ha.inRange]
    show (deref s.files s.currentFile).offset + data.length = _
    rw [ha.atEnd]
  · refine ⟨c ++ data, ?_, by rw [List.length_append, hclen]⟩
    show mapGet (mapSet s.disk _ (c ++ data))
      (deref (s.files.set s.currentFile _) s.currentFile).name = some (c ++ data)
    rw [deref_set_self _ _ _ ha.inRange]
    exact mapGet_mapSet_self _ _ _
  · intro n p hp
    have := ha.created n p hp
    have e := created_set s.files s.currentFile
      { deref s.files s.currentFile with
        offset := (deref s.files s.currentFile).offset + data.length } rfl rfl
    have e2 : n ∈ ((s.files.set s.currentFile
      { deref s.files s.currentFile with
        offset := (deref s.files s.currentFile).offset + data.length }).filter
          (fun f => f.writable)).map (fun f => f.name) := by
      rw [e]; exact this
    exact e2

/-- A rollover in which every file operation succeeds, as one state update: the current file
value is closed, a read-only file value of the old name and a read-write file value of the new
name are allocated and registered, the new file is empty, and the counter is 0. -/
theorem rollover_eq (s : storage) (env : PutEnv) (ha : Appendable s) (henv : env.succeeds) :
    s.rollover env = (none, { s with
      currentFile := s.files.length + 1
      currentFileSizeInBytes := 0
      dataFiles := mapSet (mapSet s.dataFiles (deref s.files s.currentFile).name s.files.length)
        { dir := s.dir, stamp := env.createTime } (s.files.length + 1)
      files := s.files.set s.currentFile { deref s.files s.currentFile with closed := true } ++
        [OsFile.mk (deref s.files s.currentFile).name 0 false false] ++
        [OsFile.mk (FileName.mk s.dir env.createTime) 0 true false]
      disk := mapSet s.disk { dir := s.dir, stamp := env.createTime } [] }) := by
  obtain ⟨c, hc, _⟩ := ha.size
  obtain ⟨hclose, hopenE, hcreate, _, _⟩ := henv
  unfold storage.rollover fileClose
  dsimp only
  rw [if_neg (by rw [ha.isOpen]; exact Bool.false_ne_true), hclose]
  dsimp only
  unfold osOpen
  rw [hopenE]
  dsimp only
  rw [hc]
  dsimp only
  unfold storage.createDataFile osCreate
  rw [hcreate]
  dsimp only
  have hl : (s.files.set s.currentFile { deref s.files s.currentFile with closed := true } ++
      [OsFile.mk (deref s.files s.currentFile).name 0 false false]).length = s.files.length + 1 := by
    rw [List.length_append, List.length_set]; rfl
  rw [hl, List.length_set]
  have hd := deref_append_new (s.files.set s.currentFile
      { deref s.files s.currentFile with closed := true } ++
      [OsFile.mk (deref s.files s.currentFile).name 0 false false])
    (OsFile.mk (FileName.mk s.dir env.createTime) 0 true false)
  rw [hl] at hd
  rw [hd]

/-- The file values after a rollover. -/
theorem rollover_files (files : List OsFile) (cur : Nat) (old nw : FileName) :
    (files.set cur { deref files cur with closed := true } ++ [OsFile.mk old 0 false false] ++
      [OsFile.mk nw 0 true false]).length = files.length + 2 ∧
    deref (files.set cur { deref files cur with closed := true } ++
      [OsFile.mk old 0 false false] ++ [OsFile.mk nw 0 true false]) (files.length + 1) =
        OsFile.mk nw 0 true false ∧
    deref (files.set cur { deref files cur with closed := true } ++
      [OsFile.mk old 0 false false] ++ [OsFile.mk nw 0 true false]) files.length =
        OsFile.mk old 0 false false ∧
    (∀ p, p < files.length → p ≠ cur →
      deref (files.set cur { deref files cur with closed := true } ++
        [OsFile.mk old 0 false false] ++ [OsFile.mk nw 0 true false]) p = deref files p) ∧
    ((files.set cur { deref files cur with closed := true } ++ [OsFile.mk old 0 false false] ++
      [OsFile.mk nw 0 true false]).filter (fun f => f.writable)).map (fun f => f.name) =
        (files.filter (fun f => f.writable)).map (fun f => f.name) ++ [nw] := by
  have hl1 : (files.set cur { deref files cur with closed := true }).length = files.length :=
    List.length_set _ _ _
  have hl2 : (files.set cur { deref files cur with closed := true } ++
      [OsFile.mk old 0 false false]).length = files.length + 1 := by
    rw [List.length_append, hl1]; rfl
  refine ⟨by rw [List.length_append, hl2]; rfl, ?_, ?_, ?_, ?_⟩
  · have := deref_append_new (files.set cur { deref files cur with closed := true } ++
      [OsFile.mk old 0 false false]) (OsFile.mk nw 0 true false)
    rw [hl2] at this; exact this
  · rw [deref_append_left _ _ _ (by rw [hl2]; omega)]
    have := deref_append_new (files.set cur { deref files cur with closed := true })
      (OsFile.mk old 0 false false)
    rw [hl1] at this; exact this
  · intro p hp hne
    rw [deref_append_left _ _ _ (by rw [hl2]; omega), deref_append_left _ _ _ (by rw [hl1]; omega),
      deref_set_ne _ _ _ _ hne]
  · rw [List.filter_append, List.filter_append, List.map_append, List.map_append,
      created_set files cur { deref files cur with closed := true } rfl rfl]
    simp only [List.filter_cons, List.filter_nil, Bool.false_eq_true, if_false, if_true,
      List.map_nil, List.map_cons, List.append_nil]

/-- A rollover to a name no segment has had keeps what `Get` and `Put` rely on, and adds the
new name to the created names. -/
theorem rollover_inv (s : storage) (m : List UInt8 → Option (List UInt8)) (env : PutEnv)
    (hr : Readable s m) (ha : Appendable s) (henv : env.succeeds)
    (hfresh : FileName.mk s.dir env.createTime ∉ s.createdNames) :
    (s.rollover env).1 = none ∧ Readable (s.rollover env).2 m ∧ Appendable (s.rollover env).2 ∧
      (s.rollover env).2.currentFileSizeInBytes = 0 := by
  rw [rollover_eq s env ha henv]
  obtain ⟨hlen, hnew, hro, hother, hnames⟩ := rollover_files s.files s.currentFile
    (deref s.files s.currentFile).name (FileName.mk s.dir env.createTime)
  have hold : (deref s.files s.currentFile).name ∈ s.createdNames :=
    ha.created _ _ ha.registered
  have hne : (deref s.files s.currentFile).name ≠ FileName.mk s.dir env.createTime :=
    fun e => hfresh (e ▸ hold)
  refine ⟨rfl, ⟨?_, ?_, ?_⟩, ⟨?_, ?_, ?_, ?_, ?_, ?_, ?_⟩, rfl⟩
  · intro n p hp
    change mapGet (mapSet (mapSet s.dataFiles _ _) _ _) n = some p at hp
    show p < (_ : List OsFile).length ∧ (deref _ p).name = n ∧ (deref _ p).closed = false
    by_cases h1 : n = FileName.mk s.dir env.createTime
    · rw [h1, mapGet_mapSet_self] at hp
      have hp2 : s.files.length + 1 = p := Option.some.inj hp
      rw [← hp2, hlen, hnew, h1]
      exact ⟨by omega, rfl, rfl⟩
    · rw [mapGet_mapSet_ne _ _ _ _ h1] at hp
      by_cases h2 : n = (deref s.files s.currentFile).name
      · rw [h2, mapGet_mapSet_self] at hp
        have hp2 : s.files.length = p := Option.some.inj hp
        rw [← hp2, hlen, hro, h2]
        exact ⟨by omega, rfl, rfl⟩
      · rw [mapGet_mapSet_ne _ _ _ _ h2] at hp
        obtain ⟨q1, q2, q3⟩ := hr.handle n p hp
        have hpc : p ≠ s.currentFile := by
          intro e; rw [e] at q2; exact h2 q2.symm
        rw [hlen, hother p q1 hpc]
        exact ⟨by omega, q2, q3⟩
  · intro k hk
    exact hr.absent k hk
  · intro k v hv
    obtain ⟨e, h1, h2, h3, h4, h5⟩ := hr.present k v hv
    obtain ⟨p, hp⟩ := Option.isSome_iff_exists.1 h3
    have hfile : e.File ≠ FileName.mk s.dir env.createTime :=
      fun e1 => hfresh (e1 ▸ ha.created _ _ hp)
    refine ⟨e, h1, h2, ?_, ?_, ?_⟩
    · show (mapGet (mapSet (mapSet s.dataFiles _ _) _ _) e.File).isSome = true
      rw [mapGet_mapSet_ne _ _ _ _ hfile]
      by_cases h6 : e.File = (deref s.files s.currentFile).name
      · rw [h6, mapGet_mapSet_self]; rfl
      · rw [mapGet_mapSet_ne _ _ _ _ h6]; exact h3
    · show e.ValuePos + e.ValueSize ≤ (Disk.content (mapSet s.disk _ []) e.File).length
      rw [content_mapSet_ne _ _ _ _ hfile]; exact h4
    · show List.take e.ValueSize (List.drop e.ValuePos
        (Disk.content (mapSet s.disk _ []) e.File)) = v
      rw [content_mapSet_ne _ _ _ _ hfile]; exact h5
  · show s.files.length + 1 < (_ : List OsFile).length
    rw [hlen]; omega
  · show (deref _ (s.files.length + 1)).closed = false
    rw [hnew]
  · show (deref _ (s.files.length + 1)).writable = true
    rw [hnew]
  · show mapGet (mapSet (mapSet s.dataFiles _ _) _ _) (deref _ (s.files.length + 1)).name =
      some (s.files.length + 1)
    rw [hnew]; exact mapGet_mapSet_self _ _ _
  · show (deref _ (s.files.length + 1)).offset = 0
    rw [hnew]
  · refine ⟨[], ?_, rfl⟩
    show mapGet (mapSet s.disk _ []) (deref _ (s.files.length + 1)).name = some []
    rw [hnew]; exact mapGet_mapSet_self _ _ _
  · intro n p hp
    change mapGet (mapSet (mapSet s.dataFiles _ _) _ _) n = some p at hp
    show n ∈ List.map (fun f : OsFile => f.name) (List.filter (fun f : OsFile => f.writable) _)
    rw [hnames]
    by_cases h1 : n = FileName.mk s.dir env.createTime
    · rw [h1]; exact List.mem_append_right _ (List.mem_singleton.2 rfl)
    · rw [mapGet_mapSet_ne _ _ _ _ h1] at hp
      apply List.mem_append_left
      by_cases h2 : n = (deref s.files s.currentFile).name
      · rw [h2]; exact hold
      · rw [mapGet_mapSet_ne _ _ _ _ h2] at hp
        exact ha.created n p hp

/-- A `Put` of a valid record in which every file operation succeeds, from a readable and
appendable state, when it creates no segment name twice: it returns nil, and in the state
after it the key stands for the new value. -/
theorem Put_inv (s : storage) (m : List UInt8 → Option (List UInt8))
    (key value : List UInt8) (env : PutEnv) (hr : Readable s m) (ha : Appendable s)
    (hk : key.length ≤ 65536) (hv : value.length ≤ 1048576) (henv : env.succeeds)
    (hnames : (s.Put key value env).2.createdNames.Nodup) :
    (s.Put key value env).1 = none ∧
      Readable (s.Put key value env).2 (fun k => if k = key then some value else m k) ∧
      Appendable (s.Put key value env).2 := by
  have hvalid : Record.validate { Key := key, Value := value } = none :=
    (validate_eq_none_iff _).2 ⟨hk, hv⟩
  rw [Put_valid s key value env hvalid] at hnames ⊢
  unfold storage.rolled at hnames ⊢
  split_ifs at hnames ⊢ with hroll
  · have hfresh : FileName.mk s.dir env.createTime ∉ s.createdNames := by
      have e := rollover_eq s env ha henv
      rw [e] at hnames
      dsimp only at hnames
      rw [append_createdNames] at hnames
      have e2 := (rollover_files s.files s.currentFile (deref s.files s.currentFile).name
        (FileName.mk s.dir env.createTime)).2.2.2.2
      unfold storage.createdNames at hnames ⊢
      dsimp only at hnames
      rw [e2] at hnames
      intro hmem
      exact (List.nodup_append.1 hnames).2.2 hmem (List.mem_singleton.2 rfl)
    obtain ⟨h1, h2, h3, _⟩ := rollover_inv s m env hr ha henv hfresh
    generalize s.rollover env = r at h1 h2 h3 ⊢
    obtain ⟨e1, s1⟩ := r
    dsimp only at h1 h2 h3
    subst h1
    dsimp only
    obtain ⟨a1, a2, a3, _⟩ := append_inv s1 m key value env h2 h3 henv
    exact ⟨a1, a2, a3⟩
  · dsimp only
    obtain ⟨a1, a2, a3, _⟩ := append_inv s m key value env hr ha henv
    exact ⟨a1, a2, a3⟩

theorem run_append (s : storage) (pre : List Call) (c : Call) :
    s.run (pre ++ [c]) = (s.run pre).step c := by
  unfold storage.run
  rw [List.foldl_append]; rfl

theorem run_append_list (s : storage) (pre post : List Call) :
    s.run (pre ++ post) = (s.run pre).run post := by
  unfold storage.run
  rw [List.foldl_append]

theorem allSucceed_append (pre : List Call) (c : Call) : ∀ s : storage,
    s.allSucceed (pre ++ [c]) = (s.allSucceed pre && ((s.run pre).errorOf c).isNone) := by
  induction pre with
  | nil => intro s; simp [storage.allSucceed, storage.run]
  | cons d rest ih =>
    intro s
    have e : s.run (d :: rest) = (s.step d).run rest := rfl
    rw [List.cons_append]
    unfold storage.allSucceed
    rw [ih, e, Bool.and_assoc]

theorem lastPut_append (pre : List Call) (c : Call) (k : List UInt8) :
    lastPut (pre ++ [c]) k = match c.putOf k with
      | some v => some v
      | none => lastPut pre k := by
  unfold lastPut
  rw [List.filterMap_append]
  cases h : c.putOf k with
  | none => simp [List.filterMap, h]
  | some v => simp [List.filterMap, h]

/-- The state `NewStorage` returns. -/
theorem NewStorage_eq (disk : Disk) (dir : String) (opts : StorageOptions) (now : Int) :
    NewStorage disk dir opts now none = some
      { dir := dir, currentFile := 0, currentFileSizeInBytes := 0,
        maxFileSizeInBytes := opts.maxFileSizeInBytes, keydir := [],
        dataFiles := [(FileName.mk dir now, 0)],
        files := [OsFile.mk (FileName.mk dir now) 0 true false],
        disk := mapSet disk (FileName.mk dir now) [] } := rfl

theorem NewStorage_inv (disk : Disk) (dir : String) (opts : StorageOptions) (now : Int)
    (s0 : storage) (h0 : NewStorage disk dir opts now none = some s0) :
    Readable s0 (fun _ => none) ∧ Appendable s0 := by
  rw [NewStorage_eq] at h0
  have := Option.some.inj h0
  subst this
  refine ⟨⟨?_, ?_, ?_⟩, ⟨?_, ?_, ?_, ?_, ?_, ?_, ?_⟩⟩
  · intro n p hp
    change mapGet [(FileName.mk dir now, 0)] n = some p at hp
    unfold mapGet at hp
    split_ifs at hp with h1
    · have : 0 = p := Option.some.inj hp
      subst this
      exact ⟨Nat.zero_lt_one, h1, rfl⟩
    · exact absurd hp (by simp [mapGet])
  · intro k _; rfl
  · intro k v hv; exact absurd hv (by simp)
  · exact Nat.zero_lt_one
  · rfl
  · rfl
  · show mapGet [(FileName.mk dir now, 0)] (FileName.mk dir now) = some 0
    simp [mapGet]
  · rfl
  · exact ⟨[], mapGet_mapSet_self _ _ _, rfl⟩
  · intro n p hp
    change mapGet [(FileName.mk dir now, 0)] n = some p at hp
    unfold mapGet at hp
    split_ifs at hp with h1
    · subst h1; exact List.mem_singleton.2 rfl
    · exact absurd hp (by simp [mapGet])

/-- After a run of valid, successful `Put` calls that creates no segment name twice, every
call has returned nil and the state is readable for the last values and appendable. -/
theorem run_puts_inv (s0 : storage) (hr : Readable s0 (fun _ => none)) (ha : Appendable s0)
    (puts : List Call) :
    (∀ c ∈ puts, c.validPut) → (s0.run puts).createdNames.Nodup →
      s0.allSucceed puts = true ∧ Readable (s0.run puts) (lastPut puts) ∧
        Appendable (s0.run puts) := by
  induction puts using List.reverseRecOn with
  | nil =>
    intro _ _
    exact ⟨rfl, hr, ha⟩
  | append_singleton pre c ih =>
    intro hputs hnames
    have hc : c.validPut := hputs c (List.mem_append_right _ (List.mem_singleton.2 rfl))
    cases c with
    | get key e => exact absurd hc (by simp [Call.validPut])
    | put key value env =>
      obtain ⟨hk, hv, henv⟩ := hc
      rw [run_append] at hnames ⊢
      have hnames2 : ((s0.run pre).Put key value env).2.createdNames.Nodup := hnames
      obtain ⟨ext, hext⟩ := Put_createdNames (s0.run pre) key value env
      have hpre : (s0.run pre).createdNames.Nodup := by
        rw [hext] at hnames2
        exact (List.nodup_append.1 hnames2).1
      obtain ⟨i1, i2, i3⟩ := ih (fun d hd => hputs d (List.mem_append_left _ hd)) hpre
      obtain ⟨p1, p2, p3⟩ := Put_inv (s0.run pre) (lastPut pre) key value env i2 i3 hk hv henv
        hnames2
      refine ⟨?_, ?_, p3⟩
      · rw [allSucceed_append, i1]
        show (true && (((s0.run pre).Put key value env).1).isNone) = true
        rw [p1]; rfl
      · have hfun : lastPut (pre ++ [Call.put key value env]) =
            fun k => if k = key then some value else lastPut pre k := by
          funext k
          rw [lastPut_append]
          show (match (if key = k then some value else none) with
            | some v => some v
            | none => lastPut pre k) = _
          by_cases hkk : key = k
          · rw [if_pos hkk, if_pos hkk.symm]
          · rw [if_neg hkk, if_neg (fun e => hkk e.symm)]
        rw [hfun]
        exact p2

/-- A run of `Get` calls keeps what `Get` relies on. -/
theorem run_gets_readable (gets : List Call) (hgets : ∀ c ∈ gets, c.isGet = true) :
    ∀ (s : storage) (m : List UInt8 → Option (List UInt8)), Readable s m →
      Readable (s.run gets) m := by
  induction gets with
  | nil => intro s m h; exact h
  | cons c rest ih =>
    intro s m h
    have hc := hgets c (List.mem_cons_self _ _)
    cases c with
    | put key value env => exact absurd hc (by simp [Call.isGet])
    | get key e =>
      exact ih (fun d hd => hgets d (List.mem_cons_of_mem _ hd)) _ m (Get_readable s m key e h)

/-! ## States reached by successful calls -/

theorem mapGet_mapSet_isSome {κ ν : Type} [DecidableEq κ] (m : List (κ × ν)) (k k1 : κ) (v : ν)
    (h : (mapGet m k1).isSome = true) : (mapGet (mapSet m k v) k1).isSome = true := by
  by_cases hk : k1 = k
  · rw [hk, mapGet_mapSet_self]; rfl
  · rw [mapGet_mapSet_ne _ _ _ _ hk]; exact h

/-- A `Write` changes at most the offset of the file value and the content of its file. -/
theorem fileWrite_state (s : storage) (p : Nat) (data : List UInt8) (l : Option Nat) :
    ∃ files disk, (fileWrite s p data l).2 = { s with files := files, disk := disk } ∧
      files.length = s.files.length ∧
      (∀ q, (deref files q).name = (deref s.files q).name ∧
        (deref files q).closed = (deref s.files q).closed ∧
        (deref files q).writable = (deref s.files q).writable) ∧
      (∀ n, (mapGet s.disk n).isSome = true → (mapGet disk n).isSome = true) := by
  unfold fileWrite
  dsimp only
  split_ifs
  · exact ⟨s.files, s.disk, rfl, rfl, fun _ => ⟨rfl, rfl, rfl⟩, fun _ h => h⟩
  · exact ⟨s.files, s.disk, rfl, rfl, fun _ => ⟨rfl, rfl, rfl⟩, fun _ h => h⟩
  · exact ⟨s.files, s.disk, rfl, rfl, fun _ => ⟨rfl, rfl, rfl⟩, fun _ h => h⟩
  · exact ⟨_, _, rfl, List.length_set _ _ _, fun q => deref_set_offset s.files p q _,
      fun n h => mapGet_mapSet_isSome _ _ _ _ h⟩

/-- A `Seek` changes at most the offset of the file value. -/
theorem fileSeek_state (s : storage) (p pos : Nat) :
    ∃ files, fileSeek s p pos = { s with files := files } ∧
      files.length = s.files.length ∧
      (∀ q, (deref files q).name = (deref s.files q).name ∧
        (deref files q).closed = (deref s.files q).closed ∧
        (deref files q).writable = (deref s.files q).writable) := by
  unfold fileSeek
  dsimp only
  split_ifs
  · exact ⟨s.files, rfl, rfl, fun _ => ⟨rfl, rfl, rfl⟩⟩
  · exact ⟨_, rfl, List.length_set _ _ _, fun q => deref_set_offset s.files p q _⟩

/-- A `Read` changes at most the offset of the file value. -/
theorem fileRead_state (s : storage) (p n : Nat) (e : Option Error) :
    ∃ files, (fileRead s p n e).2.2 = { s with files := files } ∧
      files.length = s.files.length ∧
      (∀ q, (deref files q).name = (deref s.files q).name ∧
        (deref files q).closed = (deref s.files q).closed ∧
        (deref files q).writable = (deref s.files q).writable) := by
  unfold fileRead
  cases e <;> dsimp only <;> split_ifs <;> first
    | exact ⟨s.files, rfl, rfl, fun _ => ⟨rfl, rfl, rfl⟩⟩
    | exact ⟨_, rfl, List.length_set _ _ _, fun q => deref_set_offset s.files p q _⟩

/-- A `Get` changes at most offsets of file values: the index, the segment table, the
counter and the content of every file are as before. -/
theorem Get_state (s : storage) (key : List UInt8) (e : Option Error) :
    ∃ files, (s.Get key e).2 = { s with files := files } ∧
      files.length = s.files.length ∧
      (∀ q, (deref files q).name = (deref s.files q).name ∧
        (deref files q).closed = (deref s.files q).closed ∧
        (deref files q).writable = (deref s.files q).writable) := by
  cases hk : mapGet s.keydir key with
  | none => rw [Get_absent s key e hk]; exact ⟨s.files, rfl, rfl, fun _ => ⟨rfl, rfl, rfl⟩⟩
  | some entry =>
    cases hf : mapGet s.dataFiles entry.File with
    | none =>
      rw [Get_not_found s key e entry hk hf]
      exact ⟨s.files, rfl, rfl, fun _ => ⟨rfl, rfl, rfl⟩⟩
    | some file =>
      rw [Get_found s key e entry file hk hf]
      obtain ⟨f1, h1, l1, d1⟩ := fileSeek_state s file entry.ValuePos
      obtain ⟨f2, h2, l2, d2⟩ := fileRead_state (fileSeek s file entry.ValuePos) file
        entry.ValueSize e
      have h3 : (fileRead (fileSeek s file entry.ValuePos) file entry.ValueSize e).2.2 =
          { s with files := f2 } := by rw [h2, h1]
      have l3 : f2.length = s.files.length := by rw [l2, h1]; exact l1
      have d3 : ∀ q, (deref f2 q).name = (deref s.files q).name ∧
          (deref f2 q).closed = (deref s.files q).closed ∧
          (deref f2 q).writable = (deref s.files q).writable := by
        intro q
        have a := d2 q
        rw [h1] at a
        exact ⟨a.1.trans (d1 q).1, a.2.1.trans (d1 q).2.1, a.2.2.trans (d1 q).2.2⟩
      generalize fileRead (fileSeek s file entry.ValuePos) file entry.ValueSize e = r at h3 ⊢
      obtain ⟨b, e2, s2⟩ := r
      cases e2 <;> exact ⟨f2, h3, l3, d3⟩

/-- The predicate `Live` only looks at the names and flags of the file values, and at which
files exist. -/
theorem live_of_same (s : storage) (files : List OsFile) (disk : Disk) (h : Live s)
    (hlen : files.length = s.files.length)
    (hf : ∀ q, (deref files q).name = (deref s.files q).name ∧
      (deref files q).closed = (deref s.files q).closed ∧
      (deref files q).writable = (deref s.files q).writable)
    (hd : ∀ n, (mapGet s.disk n).isSome = true → (mapGet disk n).isSome = true) :
    Live { s with files := files, disk := disk } := by
  refine ⟨?_, ?_, ?_, ?_, ?_, ?_⟩
  · show s.currentFile < files.length
    rw [hlen]; exact h.inRange
  · show (deref files s.currentFile).closed = false
    rw [(hf _).2.1]; exact h.isOpen
  · show (deref files s.currentFile).writable = true
    rw [(hf _).2.2]; exact h.writable
  · show mapGet s.dataFiles (deref files s.currentFile).name = some s.currentFile
    rw [(hf _).1]; exact h.registered
  · show (mapGet disk (deref files s.currentFile).name).isSome = true
    rw [(hf _).1]; exact hd _ h.onDisk
  · exact h.indexed

/-- A `Get` keeps a state live. -/
theorem Get_live (s : storage) (key : List UInt8) (e : Option Error) (h : Live s) :
    Live (s.Get key e).2 := by
  obtain ⟨files, h1, h2, h3⟩ := Get_state s key e
  rw [h1]
  exact live_of_same s files s.disk h h2 h3 (fun _ a => a)

/-- A rollover in which `Close`, `Open` and `os.Create` succeed, from a state whose current
file value is open and whose current file exists, as one state update. -/
theorem rollover_ok_eq (s : storage) (env : PutEnv)
    (hopen : (deref s.files s.currentFile).closed = false)
    (hdisk : (mapGet s.disk (deref s.files s.currentFile).name).isSome = true)
    (hclose : env.closeErr = none) (hopenE : env.openErr = none)
    (hcreate : env.createErr = none) :
    s.rollover env = (none, { s with
      currentFile := s.files.length + 1
      currentFileSizeInBytes := 0
      dataFiles := mapSet (mapSet s.dataFiles (deref s.files s.currentFile).name s.files.length)
        { dir := s.dir, stamp := env.createTime } (s.files.length + 1)
      files := s.files.set s.currentFile { deref s.files s.currentFile with closed := true } ++
        [OsFile.mk (deref s.files s.currentFile).name 0 false false] ++
        [OsFile.mk (FileName.mk s.dir env.createTime) 0 true false]
      disk := mapSet s.disk { dir := s.dir, stamp := env.createTime } [] }) := by
  obtain ⟨c, hc⟩ := Option.isSome_iff_exists.1 hdisk
  unfold storage.rollover fileClose
  dsimp only
  rw [if_neg (by rw [hopen]; exact Bool.false_ne_true), hclose]
  dsimp only
  unfold osOpen
  rw [hopenE]
  dsimp only
  rw [hc]
  dsimp only
  unfold storage.createDataFile osCreate
  rw [hcreate]
  dsimp only
  have hl : (s.files.set s.currentFile { deref s.files s.currentFile with closed := true } ++
      [OsFile.mk (deref s.files s.currentFile).name 0 false false]).length =
      s.files.length + 1 := by
    rw [List.length_append, List.length_set]; rfl
  rw [hl, List.length_set]
  have hd := deref_append_new (s.files.set s.currentFile
      { deref s.files s.currentFile with closed := true } ++
      [OsFile.mk (deref s.files s.currentFile).name 0 false false])
    (OsFile.mk (FileName.mk s.dir env.createTime) 0 true false)
  rw [hl] at hd
  rw [hd]

/-- A rollover that returns nil had `Close`, `Open` and `os.Create` succeed. -/
theorem rollover_none (s : storage) (env : PutEnv)
    (hopen : (deref s.files s.currentFile).closed = false)
    (hdisk : (mapGet s.disk (deref s.files s.currentFile).name).isSome = true)
    (hnone : (s.rollover env).1 = none) :
    env.closeErr = none ∧ env.openErr = none ∧ env.createErr = none := by
  obtain ⟨c, hc⟩ := Option.isSome_iff_exists.1 hdisk
  unfold storage.rollover fileClose at hnone
  dsimp only at hnone
  rw [if_neg (by rw [hopen]; exact Bool.false_ne_true)] at hnone
  cases h1 : env.closeErr with
  | some e => rw [h1] at hnone; exact Option.noConfusion hnone
  | none =>
    rw [h1] at hnone
    dsimp only at hnone
    unfold osOpen at hnone
    cases h2 : env.openErr with
    | some e => rw [h2] at hnone; exact Option.noConfusion hnone
    | none =>
      rw [h2] at hnone
      dsimp only at hnone
      rw [hc] at hnone
      dsimp only at hnone
      unfold storage.createDataFile osCreate at hnone
      cases h3 : env.createErr with
      | some e => rw [h3] at hnone; exact Option.noConfusion hnone
      | none => exact ⟨rfl, rfl, rfl⟩

/-- The state after a successful rollover is live. -/
theorem rollover_live (s : storage) (env : PutEnv) (h : Live s)
    (hnone : (s.rollover env).1 = none) : Live (s.rollover env).2 := by
  obtain ⟨h1, h2, h3⟩ := rollover_none s env h.isOpen h.onDisk hnone
  rw [rollover_ok_eq s env h.isOpen h.onDisk h1 h2 h3]
  obtain ⟨hlen, hnew, _, _, _⟩ := rollover_files s.files s.currentFile
    (deref s.files s.currentFile).name (FileName.mk s.dir env.createTime)
  refine ⟨?_, ?_, ?_, ?_, ?_, ?_⟩
  · show s.files.length + 1 < (_ : List OsFile).length
    rw [hlen]; omega
  · show (deref _ (s.files.length + 1)).closed = false
    rw [hnew]
  · show (deref _ (s.files.length + 1)).writable = true
    rw [hnew]
  · show mapGet (mapSet (mapSet s.dataFiles _ _) _ _) (deref _ (s.files.length + 1)).name =
      some (s.files.length + 1)
    rw [hnew]; exact mapGet_mapSet_self _ _ _
  · show (mapGet (mapSet s.disk _ []) (deref _ (s.files.length + 1)).name).isSome = true
    rw [hnew, mapGet_mapSet_self]; rfl
  · intro k e hk
    show (mapGet (mapSet (mapSet s.dataFiles _ _) _ _) e.File).isSome = true
    exact mapGet_mapSet_isSome _ _ _ _ (mapGet_mapSet_isSome _ _ _ _ (h.indexed k e hk))

/-- The end of `Put` when it returns nil: the counter grows by the frame length and the key
is indexed in the current file; otherwise at most an offset and a file content change. -/
theorem append_state (s : storage) (key data : List UInt8) (n : Nat) (env : PutEnv)
    (hnone : (s.append key data n env).1 = none) :
    ∃ files disk, (s.append key data n env).2 = { s with
        files := files, disk := disk
        currentFileSizeInBytes := s.currentFileSizeInBytes + data.length
        keydir := mapSet s.keydir key
          { File := (deref files s.currentFile).name, ValueSize := n,
            ValuePos := s.currentFileSizeInBytes + data.length - n,
            Timestamp := env.indexTime } } ∧
      files.length = s.files.length ∧
      (∀ q, (deref files q).name = (deref s.files q).name ∧
        (deref files q).closed = (deref s.files q).closed ∧
        (deref files q).writable = (deref s.files q).writable) ∧
      (∀ m, (mapGet s.disk m).isSome = true → (mapGet disk m).isSome = true) := by
  obtain ⟨files, disk, hw, hl, hd, hm⟩ := fileWrite_state s s.currentFile data env.writeLimit
  unfold storage.append at hnone ⊢
  dsimp only at hnone ⊢
  rw [hw] at hnone ⊢
  dsimp only at hnone ⊢
  split at hnone
  · exact Option.noConfusion hnone
  · exact ⟨files, disk, rfl, hl, hd, hm⟩

/-- The end of `Put` returns nil when the current file value is open and `Sync` succeeds. -/
theorem append_ok (s : storage) (key data : List UInt8) (n : Nat) (env : PutEnv)
    (hopen : (deref s.files s.currentFile).closed = false) (hsync : env.syncErr = none) :
    (s.append key data n env).1 = none := by
  obtain ⟨files, disk, hw, _, hd, _⟩ := fileWrite_state s s.currentFile data env.writeLimit
  unfold storage.append
  dsimp only
  rw [hw]
  dsimp only
  unfold fileSync
  dsimp only
  rw [if_neg (by rw [(hd _).2.1, hopen]; exact Bool.false_ne_true), hsync]

/-- The end of `Put` keeps a state live when it returns nil. -/
theorem append_live (s : storage) (key data : List UInt8) (n : Nat) (env : PutEnv)
    (h : Live s) (hnone : (s.append key data n env).1 = none) :
    Live (s.append key data n env).2 := by
  obtain ⟨files, disk, he, hl, hd, hm⟩ := append_state s key data n env hnone
  rw [he]
  have h1 := live_of_same s files disk h hl hd hm
  refine ⟨h1.inRange, h1.isOpen, h1.writable, h1.registered, h1.onDisk, ?_⟩
  intro k e hk
  change mapGet (mapSet s.keydir key _) k = some e at hk
  show (mapGet s.dataFiles e.File).isSome = true
  by_cases hkk : k = key
  · rw [hkk, mapGet_mapSet_self] at hk
    have := Option.some.inj hk
    rw [← this]
    show (mapGet s.dataFiles (deref files s.currentFile).name).isSome = true
    rw [(hd _).1, h.registered]; rfl
  · rw [mapGet_mapSet_ne _ _ _ _ hkk] at hk
    exact h.indexed k e hk

/-- A `Put` that returns nil keeps a state live. -/
theorem Put_live (s : storage) (key value : List UInt8) (env : PutEnv) (h : Live s)
    (hnone : (s.Put key value env).1 = none) : Live (s.Put key value env).2 := by
  cases hv : Record.validate { Key := key, Value := value } with
  | some e =>
    rw [Put_invalid s key value env e hv] at hnone
    exact Option.noConfusion hnone
  | none =>
    rw [Put_valid s key value env hv] at hnone ⊢
    have hr : (s.rolled (frame { Key := key, Value := value } env.recordTime).length env).1 =
        none → Live (s.rolled (frame { Key := key, Value := value }
          env.recordTime).length env).2 := by
      unfold storage.rolled
      split_ifs
      · exact rollover_live s env h
      · intro _; exact h
    generalize s.rolled (frame { Key := key, Value := value } env.recordTime).length env = r
      at hnone hr ⊢
    obtain ⟨e1, s1⟩ := r
    cases e1 with
    | some e => exact Option.noConfusion hnone
    | none => exact append_live s1 key _ _ env (hr rfl) hnone

theorem NewStorage_live (disk : Disk) (dir : String) (opts : StorageOptions) (now : Int)
    (s0 : storage) (h0 : NewStorage disk dir opts now none = some s0) : Live s0 := by
  obtain ⟨_, ha⟩ := NewStorage_inv disk dir opts now s0 h0
  obtain ⟨c, hc, _⟩ := ha.size
  refine ⟨ha.inRange, ha.isOpen, ha.writable, ha.registered, by rw [hc]; rfl, ?_⟩
  intro k e hk
  rw [NewStorage_eq] at h0
  have hs := Option.some.inj h0
  rw [← hs] at hk
  exact Option.noConfusion hk

/-- Every state reached from a live state by calls that all returned nil is live. -/
theorem run_live (calls : List Call) : ∀ s : storage, Live s → s.allSucceed calls = true →
    Live (s.run calls) := by
  induction calls with
  | nil => intro s h _; exact h
  | cons c rest ih =>
    intro s h hok
    unfold storage.allSucceed at hok
    rw [Bool.and_eq_true] at hok
    obtain ⟨h1, h2⟩ := hok
    apply ih (s.step c) _ h2
    cases c with
    | put key value env =>
      exact Put_live s key value env h (Option.isNone_iff_eq_none.1 h1)
    | get key e => exact Get_live s key e h

/-- The end of `Put` when the offset of the current file value is the end of its file and
`Write` and `Sync` succeed, as one state update: the frame is appended to the file. -/
theorem append_eq (s : storage) (key data c : List UInt8) (n : Nat) (env : PutEnv)
    (hin : s.currentFile < s.files.length)
    (hopen : (deref s.files s.currentFile).closed = false)
    (hw : (deref s.files s.currentFile).writable = true)
    (hc : mapGet s.disk (deref s.files s.currentFile).name = some c)
    (hoff : (deref s.files s.currentFile).offset = c.length)
    (hwl : env.writeLimit = none) (hsync : env.syncErr = none) (hne : data ≠ []) :
    s.append key data n env = (none, { s with
      disk := mapSet s.disk (deref s.files s.currentFile).name (c ++ data)
      files := s.files.set s.currentFile
        { deref s.files s.currentFile with
          offset := (deref s.files s.currentFile).offset + data.length }
      currentFileSizeInBytes := s.currentFileSizeInBytes + data.length
      keydir := mapSet s.keydir key
        { File := (deref s.files s.currentFile).name
          ValueSize := n
          ValuePos := s.currentFileSizeInBytes + data.length - n
          Timestamp := env.indexTime } }) := by
  have hwr := fileWrite_at_end s s.currentFile data c hopen hw hc hoff hne
  unfold storage.append
  dsimp only
  rw [hwl, hwr, hsync]
  dsimp only
  unfold fileSync
  dsimp only
  rw [deref_set_self _ _ _ hin]
  dsimp only
  rw [if_neg (by rw [hopen]; exact Bool.false_ne_true)]

theorem frame_length (key value : List UInt8) (now : Int) :
    (frame { Key := key, Value := value } now).length =
      HeaderSize + key.length + value.length := by
  have hb := frameBody_length { Key := key, Value := value } now
  dsimp only at hb
  unfold frame
  rw [List.length_append, PutUint32_length, hb]
  unfold HeaderSize
  omega

theorem frame_ne_nil (key value : List UInt8) (now : Int) :
    frame { Key := key, Value := value } now ≠ [] := by
  intro h
  have := congrArg List.length h
  rw [frame_length] at this
  simp [HeaderSize] at this

/-- The current file value after a rollover is the closed one it was. -/
theorem rollover_files_cur (files : List OsFile) (cur : Nat) (old nw : FileName)
    (h : cur < files.length) :
    deref (files.set cur { deref files cur with closed := true } ++
      [OsFile.mk old 0 false false] ++ [OsFile.mk nw 0 true false]) cur =
        { deref files cur with closed := true } := by
  rw [deref_append_left _ _ _ (by rw [List.length_append, List.length_set]; simp; omega),
    deref_append_left _ _ _ (by rw [List.length_set]; exact h), deref_set_self _ _ _ h]

/-- A `Put` of a valid record in a live state, every file operation succeeding, when the
frame does not fit: the current file value is closed, a read-only file value of the old name
and a new empty file are created and registered, the frame is the content of the new file
and the counter is the frame length. -/
theorem Put_rolls (s : storage) (key value : List UInt8) (env : PutEnv) (h : Live s)
    (hk : key.length ≤ 65536) (hv : value.length ≤ 1048576) (henv : env.succeeds)
    (hroll : s.maxFileSizeInBytes <
      ((s.currentFileSizeInBytes + (HeaderSize + key.length + value.length) : Nat) : Int)) :
    (s.Put key value env).1 = none ∧
    (s.Put key value env).2.currentFile = s.files.length + 1 ∧
    (s.Put key value env).2.files.length = s.files.length + 2 ∧
    (deref (s.Put key value env).2.files s.currentFile).closed = true ∧
    deref (s.Put key value env).2.files s.files.length =
      OsFile.mk (deref s.files s.currentFile).name 0 false false ∧
    deref (s.Put key value env).2.files (s.files.length + 1) =
      OsFile.mk (FileName.mk s.dir env.createTime)
        (HeaderSize + key.length + value.length) true false ∧
    (s.Put key value env).2.dataFiles =
      mapSet (mapSet s.dataFiles (deref s.files s.currentFile).name s.files.length)
        (FileName.mk s.dir env.createTime) (s.files.length + 1) ∧
    (s.Put key value env).2.currentFileSizeInBytes =
      HeaderSize + key.length + value.length ∧
    (s.Put key value env).2.createdNames =
      s.createdNames ++ [FileName.mk s.dir env.createTime] ∧
    (s.Put key value env).2.disk = mapSet (mapSet s.disk (FileName.mk s.dir env.createTime) [])
      (FileName.mk s.dir env.createTime) (frame { Key := key, Value := value } env.recordTime) ∧
    mapGet (s.Put key value env).2.keydir key = some
      { File := FileName.mk s.dir env.createTime, ValueSize := value.length,
        ValuePos := HeaderSize + key.length, Timestamp := env.indexTime } := by
  have hvalid : Record.validate { Key := key, Value := value } = none :=
    (validate_eq_none_iff _).2 ⟨hk, hv⟩
  obtain ⟨h1, h2, h3, h4, h5⟩ := henv
  obtain ⟨hlen, hnew, hro, _, hnames⟩ := rollover_files s.files s.currentFile
    (deref s.files s.currentFile).name (FileName.mk s.dir env.createTime)
  have hcur := rollover_files_cur s.files s.currentFile (deref s.files s.currentFile).name
    (FileName.mk s.dir env.createTime) h.inRange
  have hflen := frame_length key value env.recordTime
  rw [← hflen] at hroll
  rw [Put_valid s key value env hvalid]
  unfold storage.rolled
  rw [if_pos hroll, rollover_ok_eq s env h.isOpen h.onDisk h1 h2 h3]
  dsimp only
  rw [append_eq _ key (frame { Key := key, Value := value } env.recordTime) [] value.length env
    (by show s.files.length + 1 < (_ : List OsFile).length; rw [hlen]; omega)
    (by show (deref _ (s.files.length + 1)).closed = false; rw [hnew])
    (by show (deref _ (s.files.length + 1)).writable = true; rw [hnew])
    (by show mapGet (mapSet s.disk _ []) (deref _ (s.files.length + 1)).name = some []
        rw [hnew]; exact mapGet_mapSet_self _ _ _)
    (by show (deref _ (s.files.length + 1)).offset = 0; rw [hnew])
    h4 h5 (frame_ne_nil key value env.recordTime)]
  dsimp only
  rw [hnew]
  dsimp only
  refine ⟨rfl, rfl, ?_, ?_, ?_, ?_, rfl, ?_, ?_, ?_, ?_⟩
  · rw [List.length_set, hlen]
  · rw [deref_set_ne _ _ _ _ (by have := h.inRange; omega), hcur]
  · rw [deref_set_ne _ _ _ _ (by omega), hro]
  · rw [deref_set_self _ _ _ (by rw [hlen]; omega), Nat.zero_add, hflen]
  · rw [Nat.zero_add, hflen]
  · show List.map (fun f : OsFile => f.name) (List.filter (fun f : OsFile => f.writable) _) = _
    rw [created_set _ (s.files.length + 1)
      (OsFile.mk (FileName.mk s.dir env.createTime)
        (0 + (frame { Key := key, Value := value } env.recordTime).length) true false)
      (by rw [hnew]) (by rw [hnew]), hnames]
    rfl
  · rw [List.nil_append]
  · rw [mapGet_mapSet_self, Nat.zero_add, hflen]
    have : HeaderSize + key.length + value.length - value.length = HeaderSize + key.length := by
      omega
    rw [this]

/-- A `Put` of a valid record in a live state, every file operation succeeding, when the
frame fits: no file value is closed or created, the current file and the segment table are as
before, and the counter grows by the frame length. -/
theorem Put_stays (s : storage) (key value : List UInt8) (env : PutEnv) (h : Live s)
    (hk : key.length ≤ 65536) (hv : value.length ≤ 1048576) (henv : env.succeeds)
    (hroll : ¬ s.maxFileSizeInBytes <
      ((s.currentFileSizeInBytes + (HeaderSize + key.length + value.length) : Nat) : Int)) :
    (s.Put key value env).1 = none ∧
    (s.Put key value env).2.currentFile = s.currentFile ∧
    (s.Put key value env).2.files.length = s.files.length ∧
    (∀ q, (deref (s.Put key value env).2.files q).name = (deref s.files q).name ∧
      (deref (s.Put key value env).2.files q).closed = (deref s.files q).closed ∧
      (deref (s.Put key value env).2.files q).writable = (deref s.files q).writable) ∧
    (s.Put key value env).2.dataFiles = s.dataFiles ∧
    (s.Put key value env).2.currentFileSizeInBytes =
      s.currentFileSizeInBytes + (HeaderSize + key.length + value.length) ∧
    (s.Put key value env).2.createdNames = s.createdNames := by
  have hvalid : Record.validate { Key := key, Value := value } = none :=
    (validate_eq_none_iff _).2 ⟨hk, hv⟩
  obtain ⟨_, _, _, _, h5⟩ := henv
  have hflen := frame_length key value env.recordTime
  rw [← hflen] at hroll
  rw [Put_valid s key value env hvalid]
  unfold storage.rolled
  rw [if_neg hroll]
  dsimp only
  have hok := append_ok s key (frame { Key := key, Value := value } env.recordTime)
    value.length env h.isOpen h5
  have hcn := append_createdNames s key (frame { Key := key, Value := value } env.recordTime)
    value.length env
  obtain ⟨files, disk, he, hl, hd, _⟩ := append_state s key
    (frame { Key := key, Value := value } env.recordTime) value.length env hok
  rw [he] at hcn ⊢
  exact ⟨hok, rfl, hl, hd, rfl, by rw [← hflen], hcn⟩

/-- A `Put` that returns nil in a live state keeps the configuration. -/
theorem Put_config (s : storage) (key value : List UInt8) (env : PutEnv) (h : Live s)
    (hnone : (s.Put key value env).1 = none) :
    (s.Put key value env).2.maxFileSizeInBytes = s.maxFileSizeInBytes ∧
      (s.Put key value env).2.dir = s.dir := by
  cases hv : Record.validate { Key := key, Value := value } with
  | some e =>
    rw [Put_invalid s key value env e hv] at hnone
    exact Option.noConfusion hnone
  | none =>
    rw [Put_valid s key value env hv] at hnone ⊢
    have hr : (s.rolled (frame { Key := key, Value := value } env.recordTime).length env).1 =
        none → (s.rolled (frame { Key := key, Value := value }
          env.recordTime).length env).2.maxFileSizeInBytes = s.maxFileSizeInBytes ∧
        (s.rolled (frame { Key := key, Value := value }
          env.recordTime).length env).2.dir = s.dir := by
      unfold storage.rolled
      split_ifs
      · intro hn
        obtain ⟨h1, h2, h3⟩ := rollover_none s env h.isOpen h.onDisk hn
        rw [rollover_ok_eq s env h.isOpen h.onDisk h1 h2 h3]
        exact ⟨rfl, rfl⟩
      · intro _; exact ⟨rfl, rfl⟩
    generalize s.rolled (frame { Key := key, Value := value } env.recordTime).length env = r
      at hnone hr ⊢
    obtain ⟨e1, s1⟩ := r
    cases e1 with
    | some e => exact Option.noConfusion hnone
    | none =>
      obtain ⟨files, disk, he, _⟩ := append_state s1 key _ _ env hnone
      dsimp only
      rw [he]
      exact hr rfl

/-- Calls that all returned nil keep the configuration. -/
theorem run_config (calls : List Call) : ∀ s : storage, Live s → s.allSucceed calls = true →
    (s.run calls).maxFileSizeInBytes = s.maxFileSizeInBytes ∧ (s.run calls).dir = s.dir := by
  induction calls with
  | nil => intro s _ _; exact ⟨rfl, rfl⟩
  | cons c rest ih =>
    intro s h hok
    unfold storage.allSucceed at hok
    rw [Bool.and_eq_true] at hok
    obtain ⟨h1, h2⟩ := hok
    cases c with
    | put key value env =>
      have hn := Option.isNone_iff_eq_none.1 h1
      obtain ⟨a, b⟩ := ih _ (Put_live s key value env h hn) h2
      obtain ⟨c1, c2⟩ := Put_config s key value env h hn
      exact ⟨a.trans c1, b.trans c2⟩
    | get key e =>
      obtain ⟨a, b⟩ := ih _ (Get_live s key e h) h2
      obtain ⟨files, hf, _⟩ := Get_state s key e
      have c1 : (s.step (.get key e)).maxFileSizeInBytes = s.maxFileSizeInBytes := by
        show (s.Get key e).2.maxFileSizeInBytes = _
        rw [hf]
      have c2 : (s.step (.get key e)).dir = s.dir := by
        show (s.Get key e).2.dir = _
        rw [hf]
      exact ⟨a.trans c1, b.trans c2⟩

theorem NewStorage_config (disk : Disk) (dir : String) (opts : StorageOptions) (now : Int)
    (s0 : storage) (h0 : NewStorage disk dir opts now none = some s0) :
    s0.maxFileSizeInBytes = opts.maxFileSizeInBytes ∧ s0.dir = dir := by
  rw [NewStorage_eq] at h0
  have := Option.some.inj h0
  subst this
  exact ⟨rfl, rfl⟩

/-! ## Runs of successful `Put` calls -/

/-- A `Put` of a valid record, every file operation succeeding, when the frame fits and the
offset of the current file value is the end of its file, as one state update. -/
theorem Put_stays_eq (s : storage) (key value c : List UInt8) (env : PutEnv) (h : Live s)
    (hc : mapGet s.disk (deref s.files s.currentFile).name = some c)
    (hoff : (deref s.files s.currentFile).offset = c.length)
    (hk : key.length ≤ 65536) (hv : value.length ≤ 1048576) (henv : env.succeeds)
    (hroll : ¬ s.maxFileSizeInBytes <
      ((s.currentFileSizeInBytes + (HeaderSize + key.length + value.length) : Nat) : Int)) :
    s.Put key value env = (none, { s with
      disk := mapSet s.disk (deref s.files s.currentFile).name
        (c ++ frame { Key := key, Value := value } env.recordTime)
      files := s.files.set s.currentFile
        { deref s.files s.currentFile with
          offset := (deref s.files s.currentFile).offset +
            (frame { Key := key, Value := value } env.recordTime).length }
      currentFileSizeInBytes := s.currentFileSizeInBytes +
        (frame { Key := key, Value := value } env.recordTime).length
      keydir := mapSet s.keydir key
        { File := (deref s.files s.currentFile).name
          ValueSize := value.length
          ValuePos := s.currentFileSizeInBytes +
            (frame { Key := key, Value := value } env.recordTime).length - value.length
          Timestamp := env.indexTime } }) := by
  have hvalid : Record.validate { Key := key, Value := value } = none :=
    (validate_eq_none_iff _).2 ⟨hk, hv⟩
  obtain ⟨_, _, _, h4, h5⟩ := henv
  have hflen := frame_length key value env.recordTime
  rw [← hflen] at hroll
  rw [Put_valid s key value env hvalid]
  unfold storage.rolled
  rw [if_neg hroll]
  dsimp only
  exact append_eq s key _ c value.length env h.inRange h.isOpen h.writable hc hoff h4 h5
    (frame_ne_nil key value env.recordTime)

/-- A `Put` of a valid record, every file operation succeeding, keeps the offset of the
current file value at the end of its file. -/
theorem Put_at_end (s : storage) (key value : List UInt8) (env : PutEnv) (h : Live s)
    (he : AtEnd s) (hk : key.length ≤ 65536) (hv : value.length ≤ 1048576)
    (henv : env.succeeds) : AtEnd (s.Put key value env).2 := by
  obtain ⟨c, hc, hoff, hcur⟩ := he
  have hflen := frame_length key value env.recordTime
  by_cases hroll : s.maxFileSizeInBytes <
      ((s.currentFileSizeInBytes + (HeaderSize + key.length + value.length) : Nat) : Int)
  · obtain ⟨_, r2, _, _, _, r6, _, r8, _, r10, _⟩ := Put_rolls s key value env h hk hv henv hroll
    refine ⟨frame { Key := key, Value := value } env.recordTime, ?_, ?_, ?_⟩
    · rw [r2, r6, r10]; exact mapGet_mapSet_self _ _ _
    · rw [r2, r6, hflen]
    · rw [r8, hflen]
  · rw [Put_stays_eq s key value c env h hc hoff hk hv henv hroll]
    refine ⟨c ++ frame { Key := key, Value := value } env.recordTime, ?_, ?_, ?_⟩
    · show mapGet (mapSet s.disk _ _) (deref (s.files.set s.currentFile _) s.currentFile).name =
        some _
      rw [deref_set_self _ _ _ h.inRange]
      exact mapGet_mapSet_self _ _ _
    · show (deref (s.files.set s.currentFile _) s.currentFile).offset = _
      rw [deref_set_self _ _ _ h.inRange, List.length_append]
      show (deref s.files s.currentFile).offset + _ = _
      rw [hoff]
    · rw [List.length_append, hcur]

theorem NewStorage_at_end (disk : Disk) (dir : String) (opts : StorageOptions) (now : Int)
    (s0 : storage) (h0 : NewStorage disk dir opts now none = some s0) : AtEnd s0 := by
  obtain ⟨_, ha⟩ := NewStorage_inv disk dir opts now s0 h0
  obtain ⟨c, hc, hlen⟩ := ha.size
  exact ⟨c, hc, by rw [ha.atEnd, hlen], hlen⟩

/-- After valid `Put` calls in which every file operation succeeds, every call has returned
nil, the state is live and the offset of the current file value is the end of its file. -/
theorem run_puts_at_end (puts : List Call) : ∀ s : storage, Live s → AtEnd s →
    (∀ c ∈ puts, c.validPut) →
      s.allSucceed puts = true ∧ Live (s.run puts) ∧ AtEnd (s.run puts) := by
  induction puts with
  | nil => intro s h he _; exact ⟨rfl, h, he⟩
  | cons c rest ih =>
    intro s h he hputs
    have hc : c.validPut := hputs c (List.mem_cons_self _ _)
    cases c with
    | get key e => exact absurd hc (by simp [Call.validPut])
    | put key value env =>
      obtain ⟨hk, hv, henv⟩ := hc
      have hnone : (s.Put key value env).1 = none := by
        by_cases hroll : s.maxFileSizeInBytes <
            ((s.currentFileSizeInBytes + (HeaderSize + key.length + value.length) : Nat) : Int)
        · exact (Put_rolls s key value env h hk hv henv hroll).1
        · exact (Put_stays s key value env h hk hv henv hroll).1
      obtain ⟨a1, a2, a3⟩ := ih (s.step (.put key value env))
        (Put_live s key value env h hnone) (Put_at_end s key value env h he hk hv henv)
        (fun d hd => hputs d (List.mem_cons_of_mem _ hd))
      refine ⟨?_, a2, a3⟩
      unfold storage.allSucceed
      rw [a1, Bool.and_true]
      show ((s.Put key value env).1).isNone = true
      rw [hnone]; rfl

theorem flatten_singleton (x : List UInt8) : List.flatten [x] = x := by
  rw [List.flatten_cons, List.flatten_nil, List.append_nil]

theorem flatten_concat (g : List (List UInt8)) (x : List UInt8) :
    (g ++ [x]).flatten = g.flatten ++ x := by
  rw [List.flatten_append, flatten_singleton]

theorem flatten_groups_concat (gs : List (List (List UInt8))) (g : List (List UInt8)) :
    (gs ++ [g]).flatten = gs.flatten ++ g := by
  rw [List.flatten_append, List.flatten_cons, List.flatten_nil, List.append_nil]

/-- A `Put` of a valid record, every file operation succeeding and no segment name created
twice, puts its whole frame at the end of the current segment or alone in a new segment. -/
theorem Put_partitioned (s : storage) (key value : List UInt8) (env : PutEnv)
    (frames : List (List UInt8)) (h : Live s) (he : AtEnd s) (hp : Partitioned s frames)
    (hk : key.length ≤ 65536) (hv : value.length ≤ 1048576) (henv : env.succeeds)
    (hnames : (s.Put key value env).2.createdNames.Nodup) :
    Partitioned (s.Put key value env).2
      (frames ++ [frame { Key := key, Value := value } env.recordTime]) := by
  obtain ⟨ns, gs, g, p1, p2, p3, p4⟩ := hp
  obtain ⟨c, hc, hoff, _⟩ := he
  by_cases hroll : s.maxFileSizeInBytes <
      ((s.currentFileSizeInBytes + (HeaderSize + key.length + value.length) : Nat) : Int)
  · obtain ⟨_, r2, _, _, _, r6, _, _, r9, r10, _⟩ := Put_rolls s key value env h hk hv henv hroll
    rw [r9] at hnames
    have hfresh : ∀ a ∈ s.createdNames, a ≠ FileName.mk s.dir env.createTime := by
      intro a ha e
      exact (List.nodup_append.1 hnames).2.2 ha (List.mem_singleton.2 e)
    refine ⟨s.createdNames, gs ++ [g], [frame { Key := key, Value := value } env.recordTime],
      ?_, ?_, ?_, ?_⟩
    · rw [r9, r2, r6]
    · rw [r10]
      have : List.map (Disk.content (mapSet (mapSet s.disk (FileName.mk s.dir env.createTime) [])
          (FileName.mk s.dir env.createTime)
          (frame { Key := key, Value := value } env.recordTime))) s.createdNames =
          List.map s.disk.content s.createdNames := by
        apply List.map_congr_left
        intro a ha
        rw [content_mapSet_ne _ _ _ _ (hfresh a ha), content_mapSet_ne _ _ _ _ (hfresh a ha)]
      rw [this, p1, List.map_append, List.map_append, p2, List.map_singleton,
        List.map_singleton, p3]
    · rw [r2, r6, r10, content_mapSet_self, flatten_singleton]
    · rw [flatten_groups_concat, p4]
  · obtain ⟨_, t2, _, t4, _, _, t7⟩ := Put_stays s key value env h hk hv henv hroll
    have hdisk : (s.Put key value env).2.disk = mapSet s.disk (deref s.files s.currentFile).name
        (c ++ frame { Key := key, Value := value } env.recordTime) := by
      rw [Put_stays_eq s key value c env h hc hoff hk hv henv hroll]
    rw [t7, p1] at hnames
    have hother : ∀ a ∈ ns, a ≠ (deref s.files s.currentFile).name := by
      intro a ha e
      exact (List.nodup_append.1 hnames).2.2 ha (List.mem_singleton.2 e)
    have hcont : s.disk.content (deref s.files s.currentFile).name = c :=
      content_of_mapGet _ _ _ hc
    refine ⟨ns, gs, g ++ [frame { Key := key, Value := value } env.recordTime], ?_, ?_, ?_, ?_⟩
    · rw [t7, t2, (t4 _).1]; exact p1
    · rw [hdisk, ← p2]
      apply List.map_congr_left
      intro a ha
      rw [content_mapSet_ne _ _ _ _ (hother a ha)]
    · rw [t2, (t4 _).1, hdisk, content_mapSet_self, flatten_concat, ← p3, hcont]
    · rw [flatten_groups_concat, ← List.append_assoc, ← flatten_groups_concat, p4]

theorem NewStorage_partitioned (disk : Disk) (dir : String) (opts : StorageOptions) (now : Int)
    (s0 : storage) (h0 : NewStorage disk dir opts now none = some s0) : Partitioned s0 [] := by
  rw [NewStorage_eq] at h0
  have := Option.some.inj h0
  subst this
  refine ⟨[], [], [], rfl, rfl, ?_, rfl⟩
  show Disk.content (mapSet disk (FileName.mk dir now) []) (FileName.mk dir now) = _
  rw [content_mapSet_self]; rfl

theorem framesOf_append_put (pre : List Call) (key value : List UInt8) (env : PutEnv)
    (hk : key.length ≤ 65536) (hv : value.length ≤ 1048576) :
    framesOf (pre ++ [Call.put key value env]) =
      framesOf pre ++ [frame { Key := key, Value := value } env.recordTime] := by
  have hvalid : Record.validate { Key := key, Value := value } = none :=
    (validate_eq_none_iff _).2 ⟨hk, hv⟩
  unfold framesOf
  rw [List.filterMap_append]
  have : List.filterMap Call.frameOf [Call.put key value env] =
      [frame { Key := key, Value := value } env.recordTime] := by
    have e : Call.frameOf (Call.put key value env) =
        some (frame { Key := key, Value := value } env.recordTime) := by
      show (Record.GenerateCaskRecord { Key := key, Value := value } env.recordTime).1 = _
      rw [GenerateCaskRecord_eq _ _ hvalid]
      rfl
    rw [List.filterMap_cons, e]
    rfl
  rw [this]

/-- After valid `Put` calls in which every file operation succeeds and no segment name is
created twice, the segments in creation order hold consecutive runs of the frames. -/
theorem run_puts_partitioned (s0 : storage) (hl : Live s0) (he : AtEnd s0)
    (hp : Partitioned s0 []) (puts : List Call) :
    (∀ c ∈ puts, c.validPut) → (s0.run puts).createdNames.Nodup →
      Partitioned (s0.run puts) (framesOf puts) := by
  induction puts using List.reverseRecOn with
  | nil => intro _ _; exact hp
  | append_singleton pre c ih =>
    intro hputs hnames
    have hc : c.validPut := hputs c (List.mem_append_right _ (List.mem_singleton.2 rfl))
    have hpre : ∀ d ∈ pre, d.validPut := fun d hd => hputs d (List.mem_append_left _ hd)
    cases c with
    | get key e => exact absurd hc (by simp [Call.validPut])
    | put key value env =>
      obtain ⟨hk, hv, henv⟩ := hc
      rw [run_append] at hnames ⊢
      have hnames2 : ((s0.run pre).Put key value env).2.createdNames.Nodup := hnames
      obtain ⟨ext, hext⟩ := Put_createdNames (s0.run pre) key value env
      have hnpre : (s0.run pre).createdNames.Nodup := by
        rw [hext] at hnames2
        exact (List.nodup_append.1 hnames2).1
      obtain ⟨_, i2, i3⟩ := run_puts_at_end pre s0 hl he hpre
      rw [framesOf_append_put pre key value env hk hv]
      exact Put_partitioned (s0.run pre) key value env _ i2 i3 (ih hpre hnpre) hk hv henv hnames2

/-! # Claims -/

/-! ## Claims on the record codec -/

/-- C4: `Record.validate`, and with it `GenerateCaskRecord`, returns an error exactly when the
key is longer than 65536 bytes or the value longer than 1048576 bytes: a 65536-byte key with a
1048576-byte value is accepted, a 65537-byte key and a 1048577-byte value are rejected, and a
rejected record yields the nil frame and value size 0. -/
theorem validate_error_iff_oversized (r : Record) (now : Int) :
    (r.validate ≠ none ↔ r.Key.length > 65536 ∨ r.Value.length > 1048576) ∧
    ((r.GenerateCaskRecord now).2.2 ≠ none ↔
      r.Key.length > 65536 ∨ r.Value.length > 1048576) ∧
    (r.Key.length = 65536 → r.Value.length = 1048576 →
      r.validate = none ∧ (r.GenerateCaskRecord now).2.2 = none) ∧
    (r.Key.length = 65537 → r.validate ≠ none) ∧
    (r.Value.length = 1048577 → r.validate ≠ none) ∧
    (r.validate ≠ none →
      (r.GenerateCaskRecord now).1 = none ∧ (r.GenerateCaskRecord now).2.1 = 0) := by
  have hv := validate_eq_none_iff r
  simp only [MaxKeySize, MaxValueSize] at hv
  have hiff : r.validate ≠ none ↔ r.Key.length > 65536 ∨ r.Value.length > 1048576 := by
    rw [Ne, hv]; omega
  have hgen : (r.GenerateCaskRecord now).2.2 = none ↔ r.validate = none := by
    cases hr : r.validate with
    | none => rw [GenerateCaskRecord_eq r now hr]
    | some e => rw [GenerateCaskRecord_invalid r now e hr]
  refine ⟨hiff, ?_, ?_, ?_, ?_, ?_⟩
  · rw [Ne, hgen]; exact hiff
  · intro hk hl
    have : r.validate = none := hv.2 ⟨by omega, by omega⟩
    exact ⟨this, hgen.2 this⟩
  · intro hk; exact hiff.2 (Or.inl (by omega))
  · intro hl; exact hiff.2 (Or.inr (by omega))
  · intro hne
    cases hr : r.validate with
    | none => exact absurd hr hne
    | some e => rw [GenerateCaskRecord_invalid r now e hr]; exact ⟨rfl, rfl⟩

/-- C4, at the bounds: 65536 and 1048576 bytes pass, 65537 and 1048577 bytes do not. -/
theorem validate_error_iff_oversized_witness :
    Record.validate { Key := List.replicate 65536 0, Value := List.replicate 1048576 0 } = none ∧
    Record.validate { Key := List.replicate 65537 0, Value := [] } ≠ none ∧
    Record.validate { Key := [], Value := List.replicate 1048577 0 } ≠ none ∧
    (Record.GenerateCaskRecord { Key := List.replicate 65537 0, Value := [] } 0).1 = none :=
  ⟨((validate_error_iff_oversized
      { Key := List.replicate 65536 0, Value := List.replicate 1048576 0 } 0).2.2.1
        (List.length_replicate _ _) (List.length_replicate _ _)).1,
    (validate_error_iff_oversized { Key := List.replicate 65537 0, Value := [] } 0).2.2.2.1
      (List.length_replicate _ _),
    (validate_error_iff_oversized { Key := [], Value := List.replicate 1048577 0 } 0).2.2.2.2.1
      (List.length_replicate _ _),
    ((validate_error_iff_oversized { Key := List.replicate 65537 0, Value := [] } 0).2.2.2.2.2
      ((validate_error_iff_oversized { Key := List.replicate 65537 0, Value := [] } 0).2.2.2.1
        (List.length_replicate _ _))).1⟩

/-- C6: for a record that passes validation `GenerateCaskRecord` returns a nil error, a frame
of exactly `HeaderSize + len(key) + len(value)` bytes with `HeaderSize = 20`, and the value
size `len(value)`. -/
theorem GenerateCaskRecord_length (r : Record) (now : Int) (h : r.validate = none) :
    ∃ f, r.GenerateCaskRecord now = (some f, r.Value.length, none) ∧
      f.length = HeaderSize + r.Key.length + r.Value.length ∧ HeaderSize = 20 := by
  refine ⟨_, GenerateCaskRecord_eq r now h, ?_, rfl⟩
  rw [List.length_append, PutUint32_length, frameBody_length]
  unfold HeaderSize
  omega

set_option maxRecDepth 100000 in
/-- C6 on the record of the test: key `foo`, value `bar`. -/
theorem GenerateCaskRecord_length_witness :
    ∃ f, Record.GenerateCaskRecord { Key := [102, 111, 111], Value := [98, 97, 114] } 5 =
        (some f, 3, none) ∧ f.length = HeaderSize + 3 + 3 ∧ HeaderSize = 20 :=
  GenerateCaskRecord_length { Key := [102, 111, 111], Value := [98, 97, 114] } 5 (by decide)

/-- C7: the frame of a valid record encoded at clock reading `now` holds, big-endian, the
timestamp in bytes 4 to 12, the key length in bytes 12 to 16 and the value length in bytes 16
to 20, both exactly; then the key bytes and the value bytes; and in bytes 0 to 4 the
CRC32-IEEE of all the bytes from 4 on. -/
theorem GenerateCaskRecord_layout (r : Record) (now : Int) (h : r.validate = none) :
    ∃ f, (r.GenerateCaskRecord now).1 = some f ∧
      (f.drop 4).take 8 = PutUint64 (uint64 now) ∧
      (bigEndian ((f.drop 4).take 8) : Int) = now % 2 ^ 64 ∧
      bigEndian ((f.drop 12).take 4) = r.Key.length ∧
      bigEndian ((f.drop 16).take 4) = r.Value.length ∧
      (f.drop 20).take r.Key.length = r.Key ∧
      f.drop (20 + r.Key.length) = r.Value ∧
      bigEndian (f.take 4) = ChecksumIEEE (f.drop 4) := by
  have hv := (validate_eq_none_iff r).1 h
  simp only [MaxKeySize, MaxValueSize] at hv
  refine ⟨_, by rw [GenerateCaskRecord_eq r now h], ?_⟩
  have d4 : (PutUint32 (ChecksumIEEE (frameBody r now)) ++ frameBody r now).drop 4 =
      frameBody r now := List.drop_left (PutUint32 _) _
  have t4 : (PutUint32 (ChecksumIEEE (frameBody r now)) ++ frameBody r now).take 4 =
      PutUint32 (ChecksumIEEE (frameBody r now)) := List.take_left (PutUint32 _) _
  have b8 : (frameBody r now).drop 8 = PutUint32 r.Key.length ++
      (PutUint32 r.Value.length ++ (r.Key ++ r.Value)) := List.drop_left (PutUint64 _) _
  have b12 : (frameBody r now).drop 12 = PutUint32 r.Value.length ++ (r.Key ++ r.Value) := by
    have : (frameBody r now).drop (8 + 4) = _ := (List.drop_drop 4 8 (frameBody r now)).symm
    rw [this, b8]; exact List.drop_left (PutUint32 _) _
  have b16 : (frameBody r now).drop 16 = r.Key ++ r.Value := by
    have : (frameBody r now).drop (12 + 4) = _ := (List.drop_drop 4 12 (frameBody r now)).symm
    rw [this, b12]; exact List.drop_left (PutUint32 _) _
  have f12 : (PutUint32 (ChecksumIEEE (frameBody r now)) ++ frameBody r now).drop 12 =
      (frameBody r now).drop 8 := by
    have : (PutUint32 (ChecksumIEEE (frameBody r now)) ++ frameBody r now).drop (4 + 8) = _ :=
      (List.drop_drop 8 4 _).symm
    rw [d4] at this; exact this
  have f16 : (PutUint32 (ChecksumIEEE (frameBody r now)) ++ frameBody r now).drop 16 =
      (frameBody r now).drop 12 := by
    have : (PutUint32 (ChecksumIEEE (frameBody r now)) ++ frameBody r now).drop (4 + 12) = _ :=
      (List.drop_drop 12 4 _).symm
    rw [d4] at this; exact this
  have f20 : (PutUint32 (ChecksumIEEE (frameBody r now)) ++ frameBody r now).drop 20 =
      (frameBody r now).drop 16 := by
    have : (PutUint32 (ChecksumIEEE (frameBody r now)) ++ frameBody r now).drop (4 + 16) = _ :=
      (List.drop_drop 16 4 _).symm
    rw [d4] at this; exact this
  have f20k : (PutUint32 (ChecksumIEEE (frameBody r now)) ++ frameBody r now).drop
      (20 + r.Key.length) = r.Value := by
    rw [← List.drop_drop, f20, b16]; exact List.drop_left r.Key r.Value
  have ts : (frameBody r now).take 8 = PutUint64 (uint64 now) := List.take_left (PutUint64 _) _
  refine ⟨?_, ?_, ?_, ?_, ?_, f20k, ?_⟩
  · rw [d4, ts]
  · rw [d4, ts, bigEndian_PutUint64]
    unfold uint64
    have h0 : (0 : Int) ≤ now % 2 ^ 64 := Int.emod_nonneg _ (by decide)
    have h1 : now % 2 ^ 64 < 2 ^ 64 := Int.emod_lt_of_pos _ (by decide)
    omega
  · rw [f12, b8, take_PutUint32, bigEndian_PutUint32]; omega
  · rw [f16, b12, take_PutUint32, bigEndian_PutUint32]; omega
  · rw [f20, b16]; exact List.take_left r.Key r.Value
  · rw [t4, d4, bigEndian_PutUint32]
    exact Nat.mod_eq_of_lt (ChecksumIEEE_lt _)

set_option maxRecDepth 100000 in
/-- C7 on the record of the test, at clock reading 5. -/
theorem GenerateCaskRecord_layout_witness :
    ∃ f, (Record.GenerateCaskRecord { Key := [102, 111, 111], Value := [98, 97, 114] } 5).1 =
        some f ∧
      (f.drop 4).take 8 = PutUint64 (uint64 5) ∧
      (bigEndian ((f.drop 4).take 8) : Int) = 5 % 2 ^ 64 ∧
      bigEndian ((f.drop 12).take 4) = 3 ∧
      bigEndian ((f.drop 16).take 4) = 3 ∧
      (f.drop 20).take 3 = [102, 111, 111] ∧
      f.drop (20 + 3) = [98, 97, 114] ∧
      bigEndian (f.take 4) = ChecksumIEEE (f.drop 4) :=
  GenerateCaskRecord_layout { Key := [102, 111, 111], Value := [98, 97, 114] } 5 (by decide)

/-- C8: in the frame of a valid record, replacing any one byte after the checksum (index 4 or
more) by a different byte gives a body whose CRC32-IEEE differs from the checksum stored in
the first four bytes. -/
theorem single_byte_corruption_detected (r : Record) (now : Int) (f : List UInt8)
    (h : r.validate = none) (hf : (r.GenerateCaskRecord now).1 = some f)
    (i : Nat) (hi : 4 ≤ i) (hlt : i < f.length) (b : UInt8) (hb : b ≠ f[i]) :
    ChecksumIEEE ((f.set i b).drop 4) ≠ bigEndian (f.take 4) := by
  rw [GenerateCaskRecord_eq r now h] at hf
  have hf2 : PutUint32 (ChecksumIEEE (frameBody r now)) ++ frameBody r now = f :=
    Option.some.inj hf
  subst hf2
  have hlen : i - 4 < (frameBody r now).length := by
    rw [List.length_append, PutUint32_length] at hlt; omega
  have hget : (PutUint32 (ChecksumIEEE (frameBody r now)) ++ frameBody r now)[i] =
      (frameBody r now)[i - 4] := by
    rw [List.getElem_append_right (by rw [PutUint32_length]; omega)]
    simp only [PutUint32_length]
  rw [hget] at hb
  have hset : ((PutUint32 (ChecksumIEEE (frameBody r now)) ++ frameBody r now).set i b).drop 4 =
      (frameBody r now).set (i - 4) b := by
    rw [List.set_append_right _ _ (by rw [PutUint32_length]; omega), PutUint32_length]
    exact List.drop_left (PutUint32 _) _
  rw [hset, take_PutUint32, bigEndian_PutUint32,
    Nat.mod_eq_of_lt (ChecksumIEEE_lt _)]
  have hsplit : frameBody r now = (frameBody r now).take (i - 4) ++
      (frameBody r now)[i - 4] :: (frameBody r now).drop (i - 4 + 1) := by
    rw [← List.drop_eq_getElem_cons hlen, List.take_append_drop]
  have hset2 : (frameBody r now).set (i - 4) b = (frameBody r now).take (i - 4) ++
      b :: (frameBody r now).drop (i - 4 + 1) := List.set_eq_take_append_cons_drop.trans (by rw [if_pos hlen])
  rw [hset2]
  conv_rhs => rw [hsplit]
  exact ChecksumIEEE_single_byte _ _ _ _ hb

set_option maxRecDepth 100000 in
/-- C8 on the record of the test: the last value byte `r` replaced by `s`. -/
theorem single_byte_corruption_detected_witness :
    ChecksumIEEE (([28, 144, 205, 193, 0, 0, 0, 0, 0, 0, 0, 5, 0, 0, 0, 3, 0, 0, 0, 3,
        102, 111, 111, 98, 97, 114].set 25 115).drop 4) ≠
      bigEndian (([28, 144, 205, 193, 0, 0, 0, 0, 0, 0, 0, 5, 0, 0, 0, 3, 0, 0, 0, 3,
        102, 111, 111, 98, 97, 114] : List UInt8).take 4) :=
  single_byte_corruption_detected { Key := [102, 111, 111], Value := [98, 97, 114] } 5
    [28, 144, 205, 193, 0, 0, 0, 0, 0, 0, 0, 5, 0, 0, 0, 3, 0, 0, 0, 3, 102, 111, 111, 98, 97, 114]
    (by decide) (by decide) 25 (by decide) (by decide) 115 (by decide)

/-! ## Claims on the engine -/

theorem NewStorage_keydir (disk : Disk) (dir : String) (opts : StorageOptions) (now : Int)
    (s0 : storage) (h0 : NewStorage disk dir opts now none = some s0) : s0.keydir = [] := by
  rw [NewStorage_eq] at h0
  have := Option.some.inj h0
  subst this
  rfl

/-- A key that no successful `Put` of a run has written has no index entry after the run. -/
theorem run_keydir_absent (k : List UInt8) (calls : List Call) : ∀ s : storage,
    mapGet s.keydir k = none → k ∉ s.putKeys calls → mapGet (s.run calls).keydir k = none := by
  induction calls with
  | nil => intro s h _; exact h
  | cons c rest ih =>
    intro s h hk
    cases c with
    | get key e =>
      apply ih (s.step (.get key e))
      · show mapGet (s.Get key e).2.keydir k = none
        rw [Get_keydir]; exact h
      · exact hk
    | put key value env =>
      apply ih (s.step (.put key value env))
      · show mapGet (s.Put key value env).2.keydir k = none
        by_cases hkk : k = key
        · have herr : (s.Put key value env).1 ≠ none := by
            intro hnone
            apply hk
            unfold storage.putKeys
            rw [if_pos hnone, hkk]
            exact List.mem_cons_self _ _
          rw [Put_keydir_of_error s key value env herr]; exact h
        · rw [Put_keydir_other s key value env k hkk]; exact h
      · intro hmem
        apply hk
        unfold storage.putKeys
        split_ifs
        · exact List.mem_cons_of_mem _ hmem
        · exact hmem

/-- With the file value found open and the bytes in range, `Get` returns the bytes of the
file at the indexed place. -/
theorem Get_reads_file (s : storage) (key : List UInt8) (entry : KeydirEntry) (file : Nat)
    (hk : mapGet s.keydir key = some entry) (hf : mapGet s.dataFiles entry.File = some file)
    (hlt : file < s.files.length) (hopen : (deref s.files file).closed = false)
    (hle : entry.ValuePos + entry.ValueSize ≤
      (s.disk.content (deref s.files file).name).length) :
    (s.Get key none).1 = (some (((s.disk.content (deref s.files file).name).drop
      entry.ValuePos).take entry.ValueSize), none) := by
  rw [Get_found s key none entry file hk hf]
  have hseek : fileSeek s file entry.ValuePos =
      { s with files := s.files.set file { deref s.files file with offset := entry.ValuePos } } := by
    unfold fileSeek
    dsimp only
    rw [if_neg (by rw [hopen]; exact Bool.false_ne_true)]
  rw [hseek]
  unfold fileRead
  dsimp only
  rw [deref_set_self _ _ _ hlt]
  dsimp only
  rw [if_neg (by rw [hopen]; exact Bool.false_ne_true)]
  have hlen : (((s.disk.content (deref s.files file).name).drop entry.ValuePos).take
      entry.ValueSize).length = entry.ValueSize := by
    rw [List.length_take, List.length_drop]; omega
  by_cases h0 : entry.ValueSize = 0
  · rw [if_pos h0, h0, List.take_zero]
  · rw [if_neg h0, if_neg (by intro hnil; rw [hnil] at hlen; exact h0 hlen.symm)]
    dsimp only
    rw [hlen, Nat.sub_self, List.replicate_zero, List.append_nil]

/-- C1, at the failing input: in a fresh engine, after `Put(a)`, `Put(b)` and `Get(a)`, every
call having succeeded, `Put(c, [3])` returns nil and the `Get(c)` that follows returns the
error `EOF` and no value. The `Get` moved the offset of the current file, which `Write`
shares, so the frame of `c` was written over the frame of `b`, while the index places the
value of `c` beyond the end of the file; `Get(b)` now returns the value of `c`. -/
theorem roundtrip_lost_after_get :
    NewStorage [] "data" { maxFileSizeInBytes := 1048576 } 100 none =
        some (fresh 1048576) ∧
      (fresh 1048576).allSucceed putPutGetPut = true ∧
      (((fresh 1048576).run putPutGetPut).Get [99] none).1 = (none, some "EOF") ∧
      (((fresh 1048576).run putPutGetPut).Get [98] none).1 = (some [3], none) := by
  decide

/-- C2: from a fresh engine with any `maxFileSizeInBytes`, after any sequence of `Put` calls
of valid records in which every file operation succeeds and no segment name is created
twice, every `Put` has returned nil and, for every key written, `Get` returns the value of the
last `Put` for it, also after further `Get` calls, whichever segment holds it. -/
theorem last_write_wins (disk : Disk) (dir : String) (opts : StorageOptions) (now : Int)
    (s0 : storage) (h0 : NewStorage disk dir opts now none = some s0)
    (puts : List Call) (hputs : ∀ c ∈ puts, c.validPut)
    (hnames : (s0.run puts).createdNames.Nodup)
    (gets : List Call) (hgets : ∀ c ∈ gets, c.isGet = true)
    (k v : List UInt8) (hk : lastPut puts k = some v) :
    s0.allSucceed puts = true ∧
      ((s0.run (puts ++ gets)).Get k none).1 = (some v, none) := by
  obtain ⟨hr, ha⟩ := NewStorage_inv disk dir opts now s0 h0
  obtain ⟨h1, h2, _⟩ := run_puts_inv s0 hr ha puts hputs hnames
  refine ⟨h1, ?_⟩
  rw [run_append_list]
  exact Get_of_readable _ (lastPut puts) k v (run_gets_readable gets hgets _ _ h2) hk

set_option maxRecDepth 1000000 in
/-- C2 on four puts with segments of at most 50 bytes: two rollovers, key `a` written
twice, and a `Get` of another key before the `Get` of `a`. -/
theorem last_write_wins_witness :
    (fresh 50).allSucceed fourPuts = true ∧
      (((fresh 50).run (fourPuts ++ [.get [98] none])).Get [97] none).1 = (some [4, 5], none) :=
  last_write_wins [] "data" { maxFileSizeInBytes := 50 } 100 (fresh 50) (by decide)
    fourPuts (by decide) (by decide) [.get [98] none] (by decide) [97] [4, 5] (by decide)

/-- C3: in every state reached from `NewStorage` by any calls of `Put` and `Get`, whatever
they returned, `Get` of a key that no successful `Put` had as its key returns the nil value
and the nil error. -/
theorem Get_never_written (disk : Disk) (dir : String) (opts : StorageOptions) (now : Int)
    (s0 : storage) (h0 : NewStorage disk dir opts now none = some s0)
    (calls : List Call) (k : List UInt8) (hk : k ∉ s0.putKeys calls) (readErr : Option Error) :
    ((s0.run calls).Get k readErr).1 = (none, none) := by
  have h := run_keydir_absent k calls s0
    (by rw [NewStorage_keydir disk dir opts now s0 h0]; rfl) hk
  rw [Get_absent _ k readErr h]

set_option maxRecDepth 1000000 in
/-- C3 on the run of the test: after three keys were written, a fourth is absent. -/
theorem Get_never_written_witness :
    (((fresh 1048576).run putPutGetPut).Get [100] none).1 = (none, none) :=
  Get_never_written [] "data" { maxFileSizeInBytes := 1048576 } 100 (fresh 1048576) (by decide)
    putPutGetPut [100] (by decide) none

/-- C5: in every state, a `Put` whose key is longer than 65536 bytes or whose value is longer
than 1048576 bytes returns an error and the state it was given: index, counter, current
file, segment table, file values and file contents. -/
theorem Put_oversized_unchanged (s : storage) (key value : List UInt8) (env : PutEnv)
    (h : key.length > 65536 ∨ value.length > 1048576) :
    (s.Put key value env).1 ≠ none ∧ (s.Put key value env).2 = s := by
  cases hv : Record.validate { Key := key, Value := value } with
  | none =>
    have := (validate_eq_none_iff _).1 hv
    simp only [MaxKeySize, MaxValueSize] at this
    omega
  | some e =>
    rw [Put_invalid s key value env e hv]
    exact ⟨by simp, rfl⟩

/-- C5 on a key of 65537 bytes. -/
theorem Put_oversized_unchanged_witness :
    ((fresh 128).Put (List.replicate 65537 0) [98, 97, 114] writeFails).1 ≠ none ∧
      ((fresh 128).Put (List.replicate 65537 0) [98, 97, 114] writeFails).2 = fresh 128 :=
  Put_oversized_unchanged (fresh 128) (List.replicate 65537 0) [98, 97, 114] writeFails
    (Or.inl (by rw [List.length_replicate]; decide))

set_option maxRecDepth 1000000 in
/-- C9 fails: in a fresh engine, after a successful `Put(a, [1])`, the value byte of the record, at offset 21 of the segment,
is altered to 9. The body of the record no longer matches the stored CRC32, and `Get(a)`
returns the altered byte with a nil error. -/
theorem Get_returns_corrupted_value :
    NewStorage [] "data" { maxFileSizeInBytes := 1048576 } 100 none =
      some (fresh 1048576) ∧
    ((fresh 1048576).Put [97] [1] (PutEnv.ok 101 102 103)).1 = none ∧
    ChecksumIEEE (((((fresh 1048576).Put [97] [1] (PutEnv.ok 101 102 103)).2.corrupt
        (FileName.mk "data" 100) 21 9).disk.content (FileName.mk "data" 100)).drop 4) ≠
      bigEndian (((((fresh 1048576).Put [97] [1] (PutEnv.ok 101 102 103)).2.corrupt
        (FileName.mk "data" 100) 21 9).disk.content (FileName.mk "data" 100)).take 4) ∧
    (((((fresh 1048576).Put [97] [1] (PutEnv.ok 101 102 103)).2.corrupt
        (FileName.mk "data" 100) 21 9).Get [97] none).1 = (some [9], none)) := by
  decide

/-- C9 as amended: `Get` does not look at the checksum. For an indexed key whose segment is
registered with an open file value, and whose `ValueSize` bytes at `ValuePos` lie within the
file, `Get` returns exactly the bytes the file holds there now, with a nil error. -/
theorem Get_returns_file_bytes (s : storage) (key : List UInt8) (entry : KeydirEntry)
    (file : Nat) (hk : mapGet s.keydir key = some entry)
    (hf : mapGet s.dataFiles entry.File = some file)
    (hlt : file < s.files.length) (hopen : (deref s.files file).closed = false)
    (hle : entry.ValuePos + entry.ValueSize ≤
      (s.disk.content (deref s.files file).name).length) :
    (s.Get key none).1 = (some (((s.disk.content (deref s.files file).name).drop
      entry.ValuePos).take entry.ValueSize), none) :=
  Get_reads_file s key entry file hk hf hlt hopen hle

set_option maxRecDepth 1000000 in
/-- C9 as amended, on the altered record. -/
theorem Get_returns_file_bytes_witness :
    ((((fresh 1048576).Put [97] [1] (PutEnv.ok 101 102 103)).2.corrupt
        (FileName.mk "data" 100) 21 9).Get [97] none).1 =
      (some ((((((fresh 1048576).Put [97] [1] (PutEnv.ok 101 102 103)).2.corrupt
        (FileName.mk "data" 100) 21 9).disk.content (deref
          (((fresh 1048576).Put [97] [1] (PutEnv.ok 101 102 103)).2.corrupt
            (FileName.mk "data" 100) 21 9).files 0).name).drop 21).take 1), none) :=
  Get_returns_file_bytes
    (((fresh 1048576).Put [97] [1] (PutEnv.ok 101 102 103)).2.corrupt (FileName.mk "data" 100) 21 9)
    [97] { File := FileName.mk "data" 100, ValueSize := 1, ValuePos := 21, Timestamp := 103 } 0
    (by decide) (by decide) (by decide) (by decide) (by decide)

set_option maxRecDepth 1000000 in
/-- C10, at the failing input: in a fresh engine, a `Put(a, [1])` during which `Write` fails
without writing a byte and `Sync` succeeds returns nil, leaves the segment empty, counts 22
bytes, and enters `a` in the index; the `Get(a)` that follows returns the error `EOF`. -/
theorem Put_indexes_after_failed_write :
    NewStorage [] "data" { maxFileSizeInBytes := 1048576 } 100 none =
        some (fresh 1048576) ∧
      ((fresh 1048576).Put [97] [1] writeFails).1 = none ∧
      mapGet (fresh 1048576).keydir [97] = none ∧
      mapGet ((fresh 1048576).Put [97] [1] writeFails).2.keydir [97] =
        some { File := FileName.mk "data" 100, ValueSize := 1, ValuePos := 21,
               Timestamp := 103 } ∧
      ((fresh 1048576).Put [97] [1] writeFails).2.disk.content (FileName.mk "data" 100) = [] ∧
      ((fresh 1048576).Put [97] [1] writeFails).2.currentFileSizeInBytes = 22 ∧
      ((((fresh 1048576).Put [97] [1] writeFails).2.Get [97] none).1 = (none, some "EOF")) := by
  decide

/-- C13: in every state reached from `NewStorage` by calls that returned nil, a `Put` of a
valid record with frame length `n`, every file operation succeeding, returns nil and seals
the current file and creates a new one exactly when
`currentFileSizeInBytes + n > maxFileSizeInBytes`. If so, the old name stays registered with
an open file value of that name, the current file is the new one and the counter is `n`. If
not, and so when the sum equals `maxFileSizeInBytes`, no file is closed or created, the
current file is the same and the counter is `currentFileSizeInBytes + n`. -/
theorem rollover_iff_overflow (disk : Disk) (dir : String) (opts : StorageOptions) (now : Int)
    (s0 : storage) (h0 : NewStorage disk dir opts now none = some s0)
    (calls : List Call) (hok : s0.allSucceed calls = true)
    (s : storage) (hs : s0.run calls = s)
    (key value : List UInt8) (env : PutEnv) (hk : key.length ≤ 65536)
    (hv : value.length ≤ 1048576) (henv : env.succeeds)
    (n : Nat) (hn : n = HeaderSize + key.length + value.length)
    (s1 : storage) (hs1 : (s.Put key value env).2 = s1) :
    (s.Put key value env).1 = none ∧
    (((deref s1.files s.currentFile).closed = true ∧ s1.createdNames ≠ s.createdNames) ↔
      s.maxFileSizeInBytes < ((s.currentFileSizeInBytes + n : Nat) : Int)) ∧
    (s.maxFileSizeInBytes < ((s.currentFileSizeInBytes + n : Nat) : Int) →
      s1.createdNames = s.createdNames ++ [FileName.mk s.dir env.createTime] ∧
      (deref s1.files s1.currentFile) = OsFile.mk (FileName.mk s.dir env.createTime) n true false ∧
      s1.currentFile ≠ s.currentFile ∧
      (∃ p, mapGet s1.dataFiles (deref s.files s.currentFile).name = some p ∧
        (deref s1.files p).name = (deref s.files s.currentFile).name ∧
        (deref s1.files p).closed = false) ∧
      s1.currentFileSizeInBytes = n) ∧
    (¬ s.maxFileSizeInBytes < ((s.currentFileSizeInBytes + n : Nat) : Int) →
      s1.createdNames = s.createdNames ∧ s1.files.length = s.files.length ∧
      s1.currentFile = s.currentFile ∧
      (deref s1.files s1.currentFile).name = (deref s.files s.currentFile).name ∧
      (deref s1.files s1.currentFile).closed = false ∧
      s1.currentFileSizeInBytes = s.currentFileSizeInBytes + n) ∧
    (((s.currentFileSizeInBytes + n : Nat) : Int) = s.maxFileSizeInBytes →
      s1.currentFile = s.currentFile ∧
      s1.currentFileSizeInBytes = s.currentFileSizeInBytes + n) := by
  have hlive : Live s := by
    rw [← hs]
    exact run_live calls s0 (NewStorage_live disk dir opts now s0 h0) hok
  subst hn
  subst hs1
  have hstay := Put_stays s key value env hlive hk hv henv
  have hroll := Put_rolls s key value env hlive hk hv henv
  by_cases hc : s.maxFileSizeInBytes <
      ((s.currentFileSizeInBytes + (HeaderSize + key.length + value.length) : Nat) : Int)
  · obtain ⟨r1, r2, r3, r4, r5, r6, r7, r8, r9, _, _⟩ := hroll hc
    have hne : (s.Put key value env).2.createdNames ≠ s.createdNames := by
      rw [r9]
      intro e
      have := congrArg List.length e
      rw [List.length_append] at this
      simp at this
    refine ⟨r1, ⟨fun _ => hc, fun _ => ⟨r4, hne⟩⟩, fun _ => ⟨r9, ?_, ?_, ?_, r8⟩,
      fun h => absurd hc h, fun h => absurd hc (by omega)⟩
    · rw [r2, r6]
    · rw [r2]; have := hlive.inRange; omega
    · by_cases hsame : (deref s.files s.currentFile).name = FileName.mk s.dir env.createTime
      · refine ⟨s.files.length + 1, ?_, ?_, ?_⟩
        · rw [r7, hsame]; exact mapGet_mapSet_self _ _ _
        · rw [r6, hsame]
        · rw [r6]
      · refine ⟨s.files.length, ?_, ?_, ?_⟩
        · rw [r7, mapGet_mapSet_ne _ _ _ _ hsame]; exact mapGet_mapSet_self _ _ _
        · rw [r5]
        · rw [r5]
  · obtain ⟨t1, t2, t3, t4, t5, t6, t7⟩ := hstay hc
    have hopen : (deref (s.Put key value env).2.files s.currentFile).closed = false := by
      rw [(t4 _).2.1]; exact hlive.isOpen
    refine ⟨t1, ⟨fun h => ?_, fun h => absurd h hc⟩, fun h => absurd h hc,
      fun _ => ⟨t7, t3, t2, ?_, ?_, t6⟩, fun _ => ⟨t2, t6⟩⟩
    · rw [hopen] at h; exact absurd h.1 Bool.false_ne_true
    · rw [t2]; exact (t4 _).1
    · rw [t2]; exact hopen

set_option maxRecDepth 1000000 in
/-- C13 on a segment limit of 44 bytes: after one 22-byte frame, a second 22-byte frame
fills the segment exactly and does not roll over. -/
theorem rollover_iff_overflow_witness :
    ((fresh 44).run [.put [97] [1] (PutEnv.ok 101 102 103)]).currentFileSizeInBytes + 22 = 44 ∧
    (((fresh 44).run [.put [97] [1] (PutEnv.ok 101 102 103)]).Put [98] [2]
      (PutEnv.ok 104 105 106)).2.currentFile = 0 ∧
    (((fresh 44).run [.put [97] [1] (PutEnv.ok 101 102 103)]).Put [98] [2]
      (PutEnv.ok 104 105 106)).2.currentFileSizeInBytes = 22 + 22 :=
  ⟨by decide,
    (rollover_iff_overflow [] "data" { maxFileSizeInBytes := 44 } 100 (fresh 44) (by decide)
      [.put [97] [1] (PutEnv.ok 101 102 103)] (by decide) _ rfl [98] [2]
      (PutEnv.ok 104 105 106) (by decide) (by decide) (by decide) 22 (by decide) _ rfl).2.2.2.2
        (by decide)⟩

/-- C14: for every `maxFileSizeInBytes`, in every state reached from `NewStorage` by calls
that returned nil, a `Put` of a valid record, every file operation succeeding, returns nil
whatever the size of the frame; after it the counter is at most `maxFileSizeInBytes`, or else
the frame is longer than `maxFileSizeInBytes`, the counter is its length and the whole
content of the current file is that frame. -/
theorem size_cap_structural (disk : Disk) (dir : String) (opts : StorageOptions) (now : Int)
    (s0 : storage) (h0 : NewStorage disk dir opts now none = some s0)
    (calls : List Call) (hok : s0.allSucceed calls = true)
    (s : storage) (hs : s0.run calls = s)
    (key value : List UInt8) (env : PutEnv) (hk : key.length ≤ 65536)
    (hv : value.length ≤ 1048576) (henv : env.succeeds)
    (s1 : storage) (hs1 : (s.Put key value env).2 = s1) :
    (s.Put key value env).1 = none ∧
    s1.maxFileSizeInBytes = opts.maxFileSizeInBytes ∧
    ((s1.currentFileSizeInBytes : Int) ≤ s1.maxFileSizeInBytes ∨
      (s1.maxFileSizeInBytes < ((HeaderSize + key.length + value.length : Nat) : Int) ∧
        s1.currentFileSizeInBytes = HeaderSize + key.length + value.length ∧
        (Record.GenerateCaskRecord { Key := key, Value := value } env.recordTime).1 =
          some (s1.disk.content (deref s1.files s1.currentFile).name))) := by
  have hlive0 := NewStorage_live disk dir opts now s0 h0
  have hlive : Live s := by
    rw [← hs]; exact run_live calls s0 hlive0 hok
  have hmax : s.maxFileSizeInBytes = opts.maxFileSizeInBytes := by
    rw [← hs, (run_config calls s0 hlive0 hok).1]
    exact (NewStorage_config disk dir opts now s0 h0).1
  subst hs1
  have hvalid : Record.validate { Key := key, Value := value } = none :=
    (validate_eq_none_iff _).2 ⟨hk, hv⟩
  by_cases hc : s.maxFileSizeInBytes <
      ((s.currentFileSizeInBytes + (HeaderSize + key.length + value.length) : Nat) : Int)
  · obtain ⟨r1, r2, _, _, _, r6, _, r8, _, r10, _⟩ := Put_rolls s key value env hlive hk hv henv hc
    have hm := (Put_config s key value env hlive r1).1
    refine ⟨r1, hm.trans hmax, ?_⟩
    by_cases hfit : s.maxFileSizeInBytes <
        ((HeaderSize + key.length + value.length : Nat) : Int)
    · right
      refine ⟨by rw [hm]; exact hfit, r8, ?_⟩
      rw [GenerateCaskRecord_eq _ _ hvalid, r2, r6, r10, content_mapSet_self]
      rfl
    · left
      rw [r8, hm]; omega
  · obtain ⟨t1, _, _, _, _, t6, _⟩ := Put_stays s key value env hlive hk hv henv hc
    have hm := (Put_config s key value env hlive t1).1
    refine ⟨t1, hm.trans hmax, Or.inl ?_⟩
    rw [t6, hm]; omega

set_option maxRecDepth 1000000 in
/-- C14 on a segment limit of 5 bytes, less than any frame: the `Put` returns nil and the
22-byte frame is alone in a new segment. -/
theorem size_cap_structural_witness :
    ((fresh 5).Put [97] [1] (PutEnv.ok 101 102 103)).1 = none ∧
    ((fresh 5).Put [97] [1] (PutEnv.ok 101 102 103)).2.maxFileSizeInBytes = 5 :=
  ⟨(size_cap_structural [] "data" { maxFileSizeInBytes := 5 } 100 (fresh 5) (by decide)
      [] (by decide) _ rfl [97] [1] (PutEnv.ok 101 102 103) (by decide) (by decide)
      (by decide) _ rfl).1,
    (size_cap_structural [] "data" { maxFileSizeInBytes := 5 } 100 (fresh 5) (by decide)
      [] (by decide) _ rfl [97] [1] (PutEnv.ok 101 102 103) (by decide) (by decide)
      (by decide) _ rfl).2.1⟩

/-- C15: in every state reached from `NewStorage` by calls of `Put` and `Get` that all
returned nil, the current file is registered in the segment table under its own name, the
file of every index entry is a key of the segment table, and so a `Get` either finds no index
entry or goes on to read the registered file: it does not return `file not found`. -/
theorem index_resolvable (disk : Disk) (dir : String) (opts : StorageOptions) (now : Int)
    (s0 : storage) (h0 : NewStorage disk dir opts now none = some s0)
    (calls : List Call) (hok : s0.allSucceed calls = true)
    (s : storage) (hs : s0.run calls = s) :
    mapGet s.dataFiles (deref s.files s.currentFile).name = some s.currentFile ∧
    (∀ k e, mapGet s.keydir k = some e → ∃ file, mapGet s.dataFiles e.File = some file) ∧
    (∀ k readErr, s.Get k readErr = ((none, none), s) ∨
      ∃ e file, mapGet s.keydir k = some e ∧ mapGet s.dataFiles e.File = some file ∧
        s.Get k readErr =
          match fileRead (fileSeek s file e.ValuePos) file e.ValueSize readErr with
          | (_, some err, t) => ((none, some err), t)
          | (buffer, none, t) => ((some buffer, none), t)) := by
  have hlive : Live s := by
    rw [← hs]
    exact run_live calls s0 (NewStorage_live disk dir opts now s0 h0) hok
  refine ⟨hlive.registered, fun k e hk => Option.isSome_iff_exists.1 (hlive.indexed k e hk), ?_⟩
  intro k readErr
  cases hk : mapGet s.keydir k with
  | none => exact Or.inl (Get_absent s k readErr hk)
  | some e =>
    obtain ⟨file, hf⟩ := Option.isSome_iff_exists.1 (hlive.indexed k e hk)
    exact Or.inr ⟨e, file, rfl, hf, Get_found s k readErr e file hk hf⟩

set_option maxRecDepth 1000000 in
/-- C15 after four puts with two rollovers: the current file is registered. -/
theorem index_resolvable_witness :
    mapGet ((fresh 50).run fourPuts).dataFiles
      (deref ((fresh 50).run fourPuts).files ((fresh 50).run fourPuts).currentFile).name =
        some ((fresh 50).run fourPuts).currentFile :=
  (index_resolvable [] "data" { maxFileSizeInBytes := 50 } 100 (fresh 50) (by decide)
    fourPuts (by decide) _ rfl).1

set_option maxRecDepth 1000000 in
/-- C11 fails, in two ways. After `Put(a)`, `Put(b)`, `Get(a)`, all returning nil, the
successful `Put(c)` writes over the frame of `b`: the 44 bytes the segment held are not a
prefix of its new content. And with segments of at most 30 bytes, after `Put(a)`, a
`Put(b)` that rolls over while the clock reads 100 again creates the segment of that name
anew: the 22 bytes it held are not a prefix of its new content. -/
theorem stored_bytes_changed :
    NewStorage [] "data" { maxFileSizeInBytes := 1048576 } 100 none =
      some (fresh 1048576) ∧
    (fresh 1048576).allSucceed putPutGet = true ∧
    (((fresh 1048576).run putPutGet).Put [99] [3] (PutEnv.ok 107 108 109)).1 = none ∧
    ¬ (((fresh 1048576).run putPutGet).disk.content (FileName.mk "data" 100) <+:
      (((fresh 1048576).run putPutGet).Put [99] [3]
        (PutEnv.ok 107 108 109)).2.disk.content (FileName.mk "data" 100)) ∧
    (fresh 30).allSucceed [.put [97] [1] (PutEnv.ok 101 102 103)] = true ∧
    (((fresh 30).run [.put [97] [1] (PutEnv.ok 101 102 103)]).Put [98] [2] clockRepeats).1 =
      none ∧
    ¬ (((fresh 30).run [.put [97] [1] (PutEnv.ok 101 102 103)]).disk.content
        (FileName.mk "data" 100) <+:
      (((fresh 30).run [.put [97] [1] (PutEnv.ok 101 102 103)]).Put [98] [2]
        clockRepeats).2.disk.content (FileName.mk "data" 100)) := by
  decide

/-- C11 as amended: a `Get` changes the content of no file, in any state. In a state reached
from `NewStorage` by valid `Put` calls alone, every file operation succeeding, a further such
`Put`, whose rollover if any creates a name under which no bytes are stored, writes its frame
at the end of the current file, the new empty one after a rollover, and changes no other
file: the old content of every file is a prefix of the new. -/
theorem Put_appends (disk : Disk) (dir : String) (opts : StorageOptions) (now : Int)
    (s0 : storage) (h0 : NewStorage disk dir opts now none = some s0)
    (puts : List Call) (hputs : ∀ c ∈ puts, c.validPut)
    (s : storage) (hs : s0.run puts = s)
    (key value : List UInt8) (env : PutEnv) (hk : key.length ≤ 65536)
    (hv : value.length ≤ 1048576) (henv : env.succeeds)
    (hfresh : s.maxFileSizeInBytes <
        ((s.currentFileSizeInBytes + (HeaderSize + key.length + value.length) : Nat) : Int) →
      s.disk.content (FileName.mk s.dir env.createTime) = [])
    (s1 : storage) (hs1 : (s.Put key value env).2 = s1) :
    (∀ (t : storage) (k : List UInt8) (readErr : Option Error),
      (t.Get k readErr).2.disk = t.disk) ∧
    (s.Put key value env).1 = none ∧
    (∃ f, (Record.GenerateCaskRecord { Key := key, Value := value } env.recordTime).1 =
        some f ∧
      s1.disk.content (deref s1.files s1.currentFile).name =
        s.disk.content (deref s1.files s1.currentFile).name ++ f) ∧
    (∀ n, n ≠ (deref s1.files s1.currentFile).name → s1.disk.content n = s.disk.content n) ∧
    (∀ n, s.disk.content n <+: s1.disk.content n) := by
  have hvalid : Record.validate { Key := key, Value := value } = none :=
    (validate_eq_none_iff _).2 ⟨hk, hv⟩
  obtain ⟨_, hlive, hend⟩ := run_puts_at_end puts s0 (NewStorage_live disk dir opts now s0 h0)
    (NewStorage_at_end disk dir opts now s0 h0) hputs
  rw [hs] at hlive hend
  subst hs1
  have hget : ∀ (t : storage) (k : List UInt8) (readErr : Option Error),
      (t.Get k readErr).2.disk = t.disk := by
    intro t k readErr
    obtain ⟨files, hf, _⟩ := Get_state t k readErr
    rw [hf]
  have hframe : (Record.GenerateCaskRecord { Key := key, Value := value } env.recordTime).1 =
      some (frame { Key := key, Value := value } env.recordTime) := by
    rw [GenerateCaskRecord_eq _ _ hvalid]; rfl
  have hmain : (s.Put key value env).1 = none ∧
      (s.Put key value env).2.disk.content
          (deref (s.Put key value env).2.files (s.Put key value env).2.currentFile).name =
        s.disk.content
          (deref (s.Put key value env).2.files (s.Put key value env).2.currentFile).name ++
            frame { Key := key, Value := value } env.recordTime ∧
      (∀ n, n ≠ (deref (s.Put key value env).2.files (s.Put key value env).2.currentFile).name →
        (s.Put key value env).2.disk.content n = s.disk.content n) := by
    obtain ⟨c, hc, hoff, _⟩ := hend
    by_cases hroll : s.maxFileSizeInBytes <
        ((s.currentFileSizeInBytes + (HeaderSize + key.length + value.length) : Nat) : Int)
    · obtain ⟨r1, r2, _, _, _, r6, _, _, _, r10, _⟩ :=
        Put_rolls s key value env hlive hk hv henv hroll
      rw [r2, r6, r10]
      refine ⟨r1, ?_, ?_⟩
      · rw [content_mapSet_self, hfresh hroll, List.nil_append]
      · intro n hn
        rw [content_mapSet_ne _ _ _ _ hn, content_mapSet_ne _ _ _ _ hn]
    · obtain ⟨t1, t2, _, t4, _, _, _⟩ := Put_stays s key value env hlive hk hv henv hroll
      have hdisk : (s.Put key value env).2.disk =
          mapSet s.disk (deref s.files s.currentFile).name
            (c ++ frame { Key := key, Value := value } env.recordTime) := by
        rw [Put_stays_eq s key value c env hlive hc hoff hk hv henv hroll]
      rw [t2, (t4 _).1, hdisk]
      refine ⟨t1, ?_, ?_⟩
      · rw [content_mapSet_self, content_of_mapGet _ _ _ hc]
      · intro n hn
        rw [content_mapSet_ne _ _ _ _ hn]
  obtain ⟨m1, m2, m3⟩ := hmain
  refine ⟨hget, m1, ⟨_, hframe, m2⟩, m3, ?_⟩
  intro n
  by_cases hn : n = (deref (s.Put key value env).2.files (s.Put key value env).2.currentFile).name
  · rw [hn, m2]; exact List.prefix_append _ _
  · rw [m3 n hn]

set_option maxRecDepth 1000000 in
/-- C11 as amended, on a third `Put` after two: the 44 bytes of the segment are a prefix of
its 66 bytes. -/
theorem Put_appends_witness :
    ((fresh 1048576).run [.put [97] [1] (PutEnv.ok 101 102 103),
        .put [98] [2] (PutEnv.ok 104 105 106)]).disk.content (FileName.mk "data" 100) <+:
      (((fresh 1048576).run [.put [97] [1] (PutEnv.ok 101 102 103),
        .put [98] [2] (PutEnv.ok 104 105 106)]).Put [99] [3]
          (PutEnv.ok 107 108 109)).2.disk.content (FileName.mk "data" 100) :=
  (Put_appends [] "data" { maxFileSizeInBytes := 1048576 } 100 (fresh 1048576) (by decide)
    [.put [97] [1] (PutEnv.ok 101 102 103), .put [98] [2] (PutEnv.ok 104 105 106)]
    (by decide) _ rfl [99] [3] (PutEnv.ok 107 108 109) (by decide) (by decide) (by decide)
    (by decide) _ rfl).2.2.2.2 (FileName.mk "data" 100)

/-- C12: from a fresh engine with any `maxFileSizeInBytes`, after any sequence of valid `Put`
calls in which every file operation succeeds and no segment name is created twice, every
call has returned nil and the frames of the calls, in call order, split into consecutive
groups, one for each segment in creation order, such that the content of each segment is
the concatenation of the frames of its group: no frame is split between two files. -/
theorem no_record_spans_segments (disk : Disk) (dir : String) (opts : StorageOptions)
    (now : Int) (s0 : storage) (h0 : NewStorage disk dir opts now none = some s0)
    (puts : List Call) (hputs : ∀ c ∈ puts, c.validPut)
    (hnames : (s0.run puts).createdNames.Nodup) :
    s0.allSucceed puts = true ∧
    ∃ groups : List (List (List UInt8)),
      groups.flatten = framesOf puts ∧
      (s0.run puts).createdNames.map (s0.run puts).disk.content =
        groups.map List.flatten := by
  have hl := NewStorage_live disk dir opts now s0 h0
  have he := NewStorage_at_end disk dir opts now s0 h0
  obtain ⟨a1, _, _⟩ := run_puts_at_end puts s0 hl he hputs
  obtain ⟨ns, gs, g, p1, p2, p3, p4⟩ := run_puts_partitioned s0 hl he
    (NewStorage_partitioned disk dir opts now s0 h0) puts hputs hnames
  refine ⟨a1, gs ++ [g], p4, ?_⟩
  rw [p1, List.map_append, List.map_append, p2, List.map_singleton, List.map_singleton, p3]

set_option maxRecDepth 1000000 in
/-- C12 on four puts with segments of at most 50 bytes. -/
theorem no_record_spans_segments_witness :
    (fresh 50).allSucceed fourPuts = true ∧
    ∃ groups : List (List (List UInt8)),
      groups.flatten = framesOf fourPuts ∧
      ((fresh 50).run fourPuts).createdNames.map ((fresh 50).run fourPuts).disk.content =
        groups.map List.flatten :=
  no_record_spans_segments [] "data" { maxFileSizeInBytes := 50 } 100 (fresh 50) (by decide)
    fourPuts (by decide) (by decide)

set_option maxRecDepth 1000000 in
/-- C16 fails: in a fresh engine `Put(a, [1])` returns nil and appends its 22-byte frame at
offset 0 of the empty segment; the index entry has `ValuePos` 21, which is offset plus
header size plus key length, and not offset plus header size, which is 20. -/
theorem ValuePos_counts_key :
    NewStorage [] "data" { maxFileSizeInBytes := 1048576 } 100 none =
      some (fresh 1048576) ∧
    (fresh 1048576).disk.content (FileName.mk "data" 100) = [] ∧
    ((fresh 1048576).Put [97] [1] (PutEnv.ok 101 102 103)).1 = none ∧
    (Record.GenerateCaskRecord { Key := [97], Value := [1] } 101).1 =
      some (((fresh 1048576).Put [97] [1] (PutEnv.ok 101 102 103)).2.disk.content
        (FileName.mk "data" 100)) ∧
    mapGet ((fresh 1048576).Put [97] [1] (PutEnv.ok 101 102 103)).2.keydir [97] =
      some { File := FileName.mk "data" 100, ValueSize := 1, ValuePos := 21,
             Timestamp := 103 } ∧
    21 ≠ 0 + HeaderSize := by
  decide

/-- C16 as amended: in a state reached from `NewStorage` by valid `Put` calls alone, every
file operation succeeding, a further such `Put(k, v)` returns nil and leaves the frame as the
end of the current file, after `o` earlier bytes; the index entry of `k` has the name of the
current file, `ValueSize = len(v)` and `ValuePos = o + HeaderSize + len(k)`, the offset of the
value in the file. -/
theorem Put_index_entry (disk : Disk) (dir : String) (opts : StorageOptions) (now : Int)
    (s0 : storage) (h0 : NewStorage disk dir opts now none = some s0)
    (puts : List Call) (hputs : ∀ c ∈ puts, c.validPut)
    (s : storage) (hs : s0.run puts = s)
    (key value : List UInt8) (env : PutEnv) (hk : key.length ≤ 65536)
    (hv : value.length ≤ 1048576) (henv : env.succeeds)
    (s1 : storage) (hs1 : (s.Put key value env).2 = s1) :
    (s.Put key value env).1 = none ∧
    ∃ (pre f : List UInt8) (o : Nat),
      (Record.GenerateCaskRecord { Key := key, Value := value } env.recordTime).1 = some f ∧
      s1.disk.content (deref s1.files s1.currentFile).name = pre ++ f ∧
      pre.length = o ∧
      mapGet s1.keydir key = some
        { File := (deref s1.files s1.currentFile).name, ValueSize := value.length,
          ValuePos := o + HeaderSize + key.length, Timestamp := env.indexTime } ∧
      ((s1.disk.content (deref s1.files s1.currentFile).name).drop
        (o + HeaderSize + key.length)).take value.length = value := by
  have hvalid : Record.validate { Key := key, Value := value } = none :=
    (validate_eq_none_iff _).2 ⟨hk, hv⟩
  obtain ⟨_, hlive, hend⟩ := run_puts_at_end puts s0 (NewStorage_live disk dir opts now s0 h0)
    (NewStorage_at_end disk dir opts now s0 h0) hputs
  rw [hs] at hlive hend
  subst hs1
  have hframe : (Record.GenerateCaskRecord { Key := key, Value := value } env.recordTime).1 =
      some (frame { Key := key, Value := value } env.recordTime) := by
    rw [GenerateCaskRecord_eq _ _ hvalid]; rfl
  have hflen := frame_length key value env.recordTime
  obtain ⟨hdr, hsplit, hhdr⟩ := frame_split key value env.recordTime
  have hvalue : ∀ pre : List UInt8,
      ((pre ++ frame { Key := key, Value := value } env.recordTime).drop
        (pre.length + HeaderSize + key.length)).take value.length = value := by
    intro pre
    rw [hsplit, ← List.append_assoc]
    have : pre.length + HeaderSize + key.length = (pre ++ hdr).length := by
      rw [List.length_append, hhdr]; omega
    rw [this, List.drop_left, List.take_length]
  obtain ⟨c, hc, hoff, hcur⟩ := hend
  by_cases hroll : s.maxFileSizeInBytes <
      ((s.currentFileSizeInBytes + (HeaderSize + key.length + value.length) : Nat) : Int)
  · obtain ⟨r1, r2, _, _, _, r6, _, _, _, r10, r11⟩ :=
      Put_rolls s key value env hlive hk hv henv hroll
    refine ⟨r1, [], _, 0, hframe, ?_, rfl, ?_, ?_⟩
    · rw [r2, r6, r10, content_mapSet_self, List.nil_append]
    · rw [r2, r6, r11, Nat.zero_add]
    · rw [r2, r6, r10, content_mapSet_self]
      have h0 := hvalue []
      rw [List.nil_append, List.length_nil] at h0
      exact h0
  · obtain ⟨t1, t2, _, t4, _, _, _⟩ := Put_stays s key value env hlive hk hv henv hroll
    have heq := Put_stays_eq s key value c env hlive hc hoff hk hv henv hroll
    have hdisk : (s.Put key value env).2.disk =
        mapSet s.disk (deref s.files s.currentFile).name
          (c ++ frame { Key := key, Value := value } env.recordTime) := by
      rw [heq]
    have hkey : mapGet (s.Put key value env).2.keydir key = some
        { File := (deref s.files s.currentFile).name, ValueSize := value.length,
          ValuePos := s.currentFileSizeInBytes +
            (frame { Key := key, Value := value } env.recordTime).length - value.length,
          Timestamp := env.indexTime } := by
      rw [heq]; exact mapGet_mapSet_self _ _ _
    refine ⟨t1, c, _, c.length, hframe, ?_, rfl, ?_, ?_⟩
    · rw [t2, (t4 _).1, hdisk, content_mapSet_self]
    · rw [t2, (t4 _).1, hkey, hflen, hcur]
      have : s.currentFileSizeInBytes + (HeaderSize + key.length + value.length) -
          value.length = s.currentFileSizeInBytes + HeaderSize + key.length := by omega
      rw [this]
    · rw [t2, (t4 _).1, hdisk, content_mapSet_self]
      exact hvalue c

set_option maxRecDepth 1000000 in
/-- C16 as amended, on the first `Put` of a fresh engine. -/
theorem Put_index_entry_witness :
    ((fresh 1048576).Put [97] [1] (PutEnv.ok 101 102 103)).1 = none :=
  (Put_index_entry [] "data" { maxFileSizeInBytes := 1048576 } 100 (fresh 1048576) (by decide)
    [] (by decide) _ rfl [97] [1] (PutEnv.ok 101 102 103) (by decide) (by decide) (by decide)
    _ rfl).1

set_option maxRecDepth 1000000 in
/-- C17 fails: with segments of at most 30 bytes, after `Put(a, [1])` has filled 22 bytes of
the segment created at clock reading 100, a `Put(b, [2])` rolls over while the clock reads 100
again: it returns nil, the new segment has the name of the first one, not a greater one, the
frame of `a` is gone from the file, and `Get(a)` returns the value of `b`. -/
theorem segment_name_repeats :
    NewStorage [] "data" { maxFileSizeInBytes := 30 } 100 none = some (fresh 30) ∧
    (fresh 30).allSucceed [.put [97] [1] (PutEnv.ok 101 102 103)] = true ∧
    (Record.GenerateCaskRecord { Key := [97], Value := [1] } 101).1 =
      some (((fresh 30).run [.put [97] [1] (PutEnv.ok 101 102 103)]).disk.content
        (FileName.mk "data" 100)) ∧
    (((fresh 30).run [.put [97] [1] (PutEnv.ok 101 102 103)]).Put [98] [2] clockRepeats).1 =
      none ∧
    (((fresh 30).run [.put [97] [1] (PutEnv.ok 101 102 103)]).Put [98] [2]
      clockRepeats).2.createdNames = [FileName.mk "data" 100, FileName.mk "data" 100] ∧
    (Record.GenerateCaskRecord { Key := [98], Value := [2] } 104).1 =
      some ((((fresh 30).run [.put [97] [1] (PutEnv.ok 101 102 103)]).Put [98] [2]
        clockRepeats).2.disk.content (FileName.mk "data" 100)) ∧
    (((((fresh 30).run [.put [97] [1] (PutEnv.ok 101 102 103)]).Put [98] [2]
      clockRepeats).2.Get [97] none).1 = (some [2], none)) := by
  decide

/-- C17 as amended: `createDataFile` names the file it creates by the clock reading of the
call, and nothing else. When that reading is greater than the names of all segments created
before, the new name is none of theirs and creating the file leaves their contents and
their registrations as they were. -/
theorem createDataFile_named_by_clock (s : storage) (now : Int) (t : storage) (p : Nat)
    (hc : s.createDataFile now none = (p, none, t)) :
    (deref t.files p).name = FileName.mk s.dir now ∧
    (deref t.files p).offset = 0 ∧
    t.createdNames = s.createdNames ++ [FileName.mk s.dir now] ∧
    t.disk.content (FileName.mk s.dir now) = [] ∧
    ((∀ n ∈ s.createdNames, n.stamp < now) →
      ∀ n ∈ s.createdNames, n ≠ FileName.mk s.dir now ∧
        t.disk.content n = s.disk.content n ∧ mapGet t.dataFiles n = mapGet s.dataFiles n) := by
  unfold storage.createDataFile osCreate at hc
  dsimp only at hc
  have h1 : p = s.files.length := (congrArg Prod.fst hc).symm
  have h2 : t = { s with
      disk := mapSet s.disk (FileName.mk s.dir now) []
      files := s.files ++ [OsFile.mk (FileName.mk s.dir now) 0 true false] } :=
    (congrArg (fun r => r.2.2) hc).symm
  subst h1
  subst h2
  dsimp only
  rw [deref_append_new]
  refine ⟨rfl, rfl, ?_, content_mapSet_self _ _ _, ?_⟩
  · show List.map (fun f : OsFile => f.name) (List.filter (fun f : OsFile => f.writable) _) = _
    rw [List.filter_append, List.map_append]
    rfl
  · intro hlt n hn
    have hne : n ≠ FileName.mk s.dir now := by
      intro e
      have := hlt n hn
      rw [e] at this
      exact lt_irrefl _ this
    exact ⟨hne, content_mapSet_ne _ _ _ _ hne, rfl⟩

set_option maxRecDepth 1000000 in
/-- C17 as amended, on a second segment created at clock reading 200 after the first at
100. -/
theorem createDataFile_named_by_clock_witness :
    (deref ((fresh 30).createDataFile 200 none).2.2.files
      ((fresh 30).createDataFile 200 none).1).name = FileName.mk "data" 200 :=
  (createDataFile_named_by_clock (fresh 30) 200 ((fresh 30).createDataFile 200 none).2.2
    ((fresh 30).createDataFile 200 none).1 (by decide)).1

end Dymos
